import Mathlib

/-!
Verification of the Smartsheet ↔ Bind ERP sync service (`src/main.py`)
against its natural-language specification.

The development shallowly embeds the pure core of the service:
dynamic Python values (`PyVal`), the slug/date/total normalisation
helpers, the composite-signature derivation, the reconciliation pass of
`_push_to_sheet`, the mapping-rule resolution, the fetch aggregation of
`_traer_facturas_por_empresas`, and the per-row due-ness decision of
`_job_runner`.  Python numbers (int and float alike) are modelled as
exact rationals; exceptions of embedded fragments become `Option`
results (`none` = the Python code raises).
-/

set_option autoImplicit false

namespace BindSync

/-!
Rational arithmetic.  The standard `Rat` operations are
`@[irreducible]`, which blocks the kernel evaluation `decide`-style
witnesses rely on, so the embedding computes through these equivalent
helpers built on the reducible smart constructor `mkRat`; bridge lemmas
below relate them to the standard operations.
-/

/-- `a * b` on `ℚ`, kernel-reducible. -/
def qMul (a b : ℚ) : ℚ := mkRat (a.num * b.num) (a.den * b.den)

/-- `a + b` on `ℚ`, kernel-reducible. -/
def qAdd (a b : ℚ) : ℚ := mkRat (a.num * b.den + b.num * a.den) (a.den * b.den)

/-- `a - b` on `ℚ`, kernel-reducible. -/
def qSub (a b : ℚ) : ℚ := mkRat (a.num * b.den - b.num * a.den) (a.den * b.den)

/-- `a / b` on `ℚ` (0 for `b = 0`), kernel-reducible. -/
def qDiv (a b : ℚ) : ℚ :=
  if 0 ≤ b.num then mkRat (a.num * b.den) (a.den * b.num.natAbs)
  else mkRat (-(a.num * b.den)) (a.den * b.num.natAbs)

/-- `a ≤ b` on `ℚ`, kernel-reducible. -/
def qLe (a b : ℚ) : Bool := a.num * b.den ≤ b.num * a.den

/-- `a < b` on `ℚ`, kernel-reducible. -/
def qLt (a b : ℚ) : Bool := a.num * b.den < b.num * a.den

/-- `⌊a⌋` on `ℚ`, kernel-reducible. -/
def qFloor (a : ℚ) : ℤ := a.num.fdiv a.den

/-- Truncation toward zero (Python `int(float)`), kernel-reducible. -/
def qTrunc (a : ℚ) : ℤ := a.num.tdiv a.den

/-- A dynamic Python value as it appears in record fields and sheet
cells: `None`, a bool, a number (Python int and float are both modelled
as an exact rational), or a string. -/
inductive PyVal where
  | vnone
  | vbool (b : Bool)
  | vnum (q : ℚ)
  | vstr (s : String)
  deriving DecidableEq, Repr

namespace PyVal

/-- Python truthiness: `None`, `False`, `0` and `""` are falsy. -/
def truthy : PyVal → Bool
  | vnone => false
  | vbool b => b
  | vnum q => q != 0
  | vstr s => s ≠ ""

/-- Python `a or b`. -/
def orElse (a b : PyVal) : PyVal := if a.truthy then a else b

/-- Python `str(v)`.  For numbers we render the exact rational (Python
renders ints and floats with their own reprs; no claim depends on the
numeric rendering). -/
def pyStr : PyVal → String
  | vnone => "None"
  | vbool b => if b then "True" else "False"
  | vnum q => if q.den = 1 then toString q.num else toString q.num ++ "/" ++ toString q.den
  | vstr s => s

/-- Python `==` across the dynamic types that occur here: numbers and
bools compare by numeric value, strings by contents, `None` only to
itself, and values of different kinds are unequal. -/
def pyEq : PyVal → PyVal → Bool
  | vnone, vnone => true
  | vbool a, vbool b => a == b
  | vbool a, vnum b => (if a then (1 : ℚ) else 0) == b
  | vnum a, vbool b => a == (if b then (1 : ℚ) else 0)
  | vnum a, vnum b => a == b
  | vstr a, vstr b => a == b
  | _, _ => false

end PyVal

open PyVal

/-- One character of NFD decomposition followed by ASCII-fold: an ASCII
character is kept, a Latin letter with a diacritic decomposes to its
base letter (the combining mark is dropped by the ascii/ignore step),
any other non-ASCII character is dropped. -/
def asciiFold (c : Char) : Option Char :=
  if c.toNat < 128 then some c
  else if c ∈ ['á', 'à', 'â', 'ä', 'ã', 'å'] then some 'a'
  else if c ∈ ['Á', 'À', 'Â', 'Ä', 'Ã', 'Å'] then some 'A'
  else if c ∈ ['é', 'è', 'ê', 'ë'] then some 'e'
  else if c ∈ ['É', 'È', 'Ê', 'Ë'] then some 'E'
  else if c ∈ ['í', 'ì', 'î', 'ï'] then some 'i'
  else if c ∈ ['Í', 'Ì', 'Î', 'Ï'] then some 'I'
  else if c ∈ ['ó', 'ò', 'ô', 'ö', 'õ'] then some 'o'
  else if c ∈ ['Ó', 'Ò', 'Ô', 'Ö', 'Õ'] then some 'O'
  else if c ∈ ['ú', 'ù', 'û', 'ü'] then some 'u'
  else if c ∈ ['Ú', 'Ù', 'Û', 'Ü'] then some 'U'
  else if c = 'ñ' then some 'n'
  else if c = 'Ñ' then some 'N'
  else none

/-- ASCII lower-casing of one character (the service's data is ASCII
after the fold; Python's Unicode case mapping is not needed). -/
def asciiLowerChar (c : Char) : Char :=
  if 65 ≤ c.toNat ∧ c.toNat ≤ 90 then Char.ofNat (c.toNat + 32) else c

/-- ASCII upper-casing of one character. -/
def asciiUpperChar (c : Char) : Char :=
  if 97 ≤ c.toNat ∧ c.toNat ≤ 122 then Char.ofNat (c.toNat - 32) else c

/-- `str.lower()` (ASCII). -/
def pyLower (s : String) : String := String.mk (s.toList.map asciiLowerChar)

/-- `str.upper()` (ASCII). -/
def pyUpper (s : String) : String := String.mk (s.toList.map asciiUpperChar)

/-- Python whitespace (`string.whitespace`). -/
def pySpace (c : Char) : Bool := c ∈ [' ', '\t', '\n', '\r', '\x0b', '\x0c']

/-- Strip surrounding whitespace from a character list. -/
def stripList (cs : List Char) : List Char :=
  ((cs.dropWhile pySpace).reverse.dropWhile pySpace).reverse

/-- `str.strip()`. -/
def pyStrip (s : String) : String := String.mk (stripList s.toList)

/-- `pre` is a prefix of `s` (`str.startswith`). -/
def startsWithStr (s pre : String) : Bool := pre.toList.isPrefixOf s.toList

/-- `suf` is a suffix of `s` (`str.endswith`). -/
def endsWithStr (s suf : String) : Bool :=
  suf.toList.reverse.isPrefixOf s.toList.reverse

/-- Replace every (leftmost, non-overlapping) occurrence of `pat`;
fuel-driven recursion, complete when `fuel` is the input length. -/
def replaceFuel (pat sub : List Char) : ℕ → List Char → List Char
  | _, [] => []
  | 0, cs => cs
  | fuel + 1, c :: rest =>
    if pat.isPrefixOf (c :: rest) && !pat.isEmpty then
      sub ++ replaceFuel pat sub fuel ((c :: rest).drop pat.length)
    else c :: replaceFuel pat sub fuel rest

/-- `str.replace(pat, sub)` (all occurrences). -/
def strReplace (s pat sub : String) : String :=
  String.mk (replaceFuel pat.toList sub.toList s.toList.length s.toList)

/-- Whether `pat` occurs in the character list (`pat in s`). -/
def containsSubList (pat : List Char) : List Char → Bool
  | [] => pat.isEmpty
  | c :: rest => pat.isPrefixOf (c :: rest) || containsSubList pat rest

/-- `pat in s` for strings. -/
def containsSub (s pat : String) : Bool := containsSubList pat.toList s.toList

/-- `_slug(text)`: NFD-normalise, ASCII-fold dropping what does not
decompose to ASCII, remove space characters, lower-case. -/
def slug (text : String) : String :=
  String.mk (((text.toList.filterMap asciiFold).filter (· ≠ ' ')).map asciiLowerChar)

/-- Consume a maximal run of decimal digits, returning the
accumulated value, how many digits were read, and the rest. -/
def digitsAcc (acc count : ℕ) : List Char → ℕ × ℕ × List Char
  | [] => (acc, count, [])
  | c :: cs =>
    if c.isDigit then digitsAcc (acc * 10 + (c.toNat - 48)) (count + 1) cs
    else (acc, count, c :: cs)

/-- An optional leading `+`/`-` sign: returns the sign as `±1` and the
rest. -/
def takeSign : List Char → ℤ × List Char
  | '+' :: cs => (1, cs)
  | '-' :: cs => (-1, cs)
  | cs => (1, cs)

/-- The exponent tail `e±ddd` of a float literal, if present; `none`
means no exponent marker, `some none` a malformed exponent. -/
def parseExponent : List Char → Option (Option (ℤ × List Char))
  | c :: cs =>
    if c = 'e' ∨ c = 'E' then
      let (sgn, cs1) := takeSign cs
      let (e, k, rest) := digitsAcc 0 0 cs1
      if k = 0 then some none else some (some (sgn * e, rest))
    else none
  | [] => none

/-- Python `float(s)` on a string, restricted to plain decimal literals
`[±]digits[.digits][e±digits]` / `[±].digits[...]` with surrounding
whitespace; anything else (including `inf`/`nan`, which the service
never receives) fails. `none` = Python raises `ValueError`. -/
def parseFloat (s : String) : Option ℚ :=
  let cs := stripList s.toList
  let (sgn, cs1) := takeSign cs
  let (ip, ik, cs2) := digitsAcc 0 0 cs1
  let (frac, rest) :=
    match cs2 with
    | '.' :: cs3 =>
      let (fp, fk, cs4) := digitsAcc 0 0 cs3
      (some (fp, fk), cs4)
    | _ => (none, cs2)
  let mantissa : Option (ℤ × ℕ) :=
    match frac with
    | none => if ik = 0 then none else some ((ip : ℤ), 0)
    | some (fp, fk) =>
      if ik = 0 ∧ fk = 0 then none
      else some (((ip * 10 ^ fk + fp : ℕ) : ℤ), fk)
  match mantissa with
  | none => none
  | some (n, k) =>
    match parseExponent rest with
    | none => if rest = [] then some (mkRat (sgn * n) (10 ^ k)) else none
    | some none => none
    | some (some (e, rest2)) =>
      if rest2 = [] then
        some (if 0 ≤ e then mkRat (sgn * n * 10 ^ e.toNat) (10 ^ k)
              else mkRat (sgn * n) (10 ^ k * 10 ^ (-e).toNat))
      else none

/-- Python `int(s)` on a string: surrounding whitespace allowed, an
optional sign, then decimal digits only. `none` = raises. -/
def parseIntStr (s : String) : Option ℤ :=
  let cs := stripList s.toList
  let (sgn, cs1) := takeSign cs
  let (v, k, rest) := digitsAcc 0 0 cs1
  if k = 0 ∨ rest ≠ [] then none else some (sgn * v)

/-- Python `int(v)`, as used on the interval cell: a number truncates
toward zero, a bool becomes 0/1, a string must be a decimal integer
literal. `none` = raises. -/
def pyInt : PyVal → Option ℤ
  | .vnum q => some (qTrunc q)
  | .vbool b => some (if b then 1 else 0)
  | .vstr s => parseIntStr s
  | .vnone => none

/-- Python `float(v)`: `none` = raises (e.g. on `None` or a non-numeric
string). -/
def pyFloat : PyVal → Option ℚ
  | .vnum q => some q
  | .vbool b => some (if b then 1 else 0)
  | .vstr s => parseFloat s
  | .vnone => none

/-- Round to the nearest integer, ties to even (Python's `round`).
The binary-float representation error of CPython `round` is not
modelled: numbers are exact rationals. -/
def roundHalfEven (q : ℚ) : ℤ :=
  let n := qFloor q
  let f := qSub q (n : ℚ)
  if qLt f (mkRat 1 2) then n
  else if qLt (mkRat 1 2) f then n + 1
  else if n % 2 = 0 then n else n + 1

/-- Python `round(x, 2)`. -/
def round2 (q : ℚ) : ℚ := mkRat (roundHalfEven (qMul q 100)) 100

/-- `_coerce_total(val)`: `round(float(val), 2)`, degrading to `0.0` on
any exception. -/
def coerceTotal (v : PyVal) : ℚ :=
  match pyFloat v with
  | some q => round2 q
  | none => 0

/-- Gregorian leap year. -/
def isLeap (y : ℕ) : Bool := y % 4 == 0 && (y % 100 != 0 || y % 400 == 0)

/-- Days in a month. -/
def daysInMonth (y m : ℕ) : ℕ :=
  if m = 2 then (if isLeap y then 29 else 28)
  else if m ∈ [4, 6, 9, 11] then 30 else 31

/-- `datetime.date.fromisoformat` on the dashed `YYYY-MM-DD` form:
ten characters, zero-padded fields, a valid month and day.  (CPython
also accepts the rare undashed `YYYYMMDD` form; the service only ever
meets dashed dates, so only that form is modelled.) -/
def parseIsoDate (s : String) : Option (ℕ × ℕ × ℕ) :=
  match s.toList with
  | [y1, y2, y3, y4, '-', m1, m2, '-', d1, d2] =>
    if (y1.isDigit && y2.isDigit && y3.isDigit && y4.isDigit &&
        m1.isDigit && m2.isDigit && d1.isDigit && d2.isDigit) then
      let y := ((y1.toNat - 48) * 10 + (y2.toNat - 48)) * 100 +
               (y3.toNat - 48) * 10 + (y4.toNat - 48)
      let m := (m1.toNat - 48) * 10 + (m2.toNat - 48)
      let d := (d1.toNat - 48) * 10 + (d2.toNat - 48)
      if 1 ≤ y ∧ 1 ≤ m ∧ m ≤ 12 ∧ 1 ≤ d ∧ d ≤ daysInMonth y m then
        some (y, m, d)
      else none
    else none
  | _ => none

/-- `_iso(d)` on a string argument: empty gives `None`; otherwise the
first ten characters are parsed as a date and echoed back in ISO form
(the strict dashed form is its own canonical rendering), and on parse
failure the original string is returned unchanged. -/
def isoStr (s : String) : Option String :=
  if s = "" then none
  else if (parseIsoDate (String.mk (s.toList.take 10))).isSome then
    some (String.mk (s.toList.take 10))
  else some s

/-- `_iso(d)` on a dynamic value: a falsy argument gives `None`; a
non-string truthy argument makes the slice `d[:10]` raise inside the
`try`, so the value is returned unchanged. -/
def isoPy (d : PyVal) : Option PyVal :=
  if ¬d.truthy then none
  else match d with
    | .vstr s => (isoStr s).map .vstr
    | v => some v

/-- A derived composite signature `(isoDate, normalizedTaxId,
roundedTotal, documentTypeString)`.  The first component is a dynamic
value because a truthy non-string date cell passes through `_iso`
unchanged. -/
abbrev Sig := PyVal × String × ℚ × String

/-- The date component of `_make_signature`: `_iso(date or "") or ""`. -/
def sigDate (date : PyVal) : PyVal :=
  match isoPy (PyVal.orElse date (.vstr "")) with
  | none => .vstr ""
  | some v => PyVal.orElse v (.vstr "")

/-- The tax-id component `(rfc or "").strip().upper()`; a truthy
non-string raises `AttributeError` (`none`). -/
def sigRfc (rfc : PyVal) : Option String :=
  match PyVal.orElse rfc (.vstr "") with
  | .vstr s => some (pyUpper (pyStrip s))
  | _ => none

/-- `_make_signature(date, rfc, total, cfdi)`; `none` = the Python call
raises (only possible through the tax-id component). -/
def makeSignature (date rfc total cfdi : PyVal) : Option Sig :=
  match sigRfc rfc with
  | none => none
  | some r => some (sigDate date, r, coerceTotal total,
                    pyStrip (PyVal.pyStr (PyVal.orElse cfdi (.vstr ""))))

/-- A destination-sheet column. -/
structure SColumn where
  id : ℕ
  title : String
  deriving DecidableEq, Repr

/-- A destination-sheet cell: a raw value and an optional display
value. -/
structure SCell where
  columnId : ℕ
  value : PyVal
  displayValue : Option String
  deriving DecidableEq, Repr

/-- A destination-sheet row. -/
structure SRow where
  id : ℕ
  cells : List SCell
  deriving DecidableEq, Repr

/-- A destination sheet. -/
structure DSheet where
  columns : List SColumn
  rows : List SRow
  deriving DecidableEq, Repr

/-- Python-dict lookup over an insertion-ordered association list:
the LAST binding of a key wins, as a later `d[k] = v` overwrites an
earlier one. -/
def dget {α β : Type} [DecidableEq α] : List (α × β) → α → Option β
  | [], _ => none
  | (k, v) :: l, k' =>
    match dget l k' with
    | some w => some w
    | none => if k' = k then some v else none

/-- `col_map = {_slug(c.title): c.id}` followed by `.get`: the last
column whose slugged title equals the key. -/
def colMapGet : List SColumn → String → Option ℕ
  | [], _ => none
  | c :: cols, k =>
    match colMapGet cols k with
    | some i => some i
    | none => if slug c.title = k then some c.id else none

/-- Truthiness of an `Optional[int]`: `None` and `0` are falsy. -/
def optNatTruthy : Option ℕ → Bool
  | some n => n ≠ 0
  | none => false

/-- `cid and c.column_id == cid` for an optional column id. -/
def colHit (o : Option ℕ) (c : SCell) : Bool :=
  match o with
  | some n => n ≠ 0 && c.columnId == n
  | none => false

/-- `c.display_value or c.value` (a falsy display value falls back to
the raw value). -/
def cellSigVal (c : SCell) : PyVal :=
  match c.displayValue with
  | some s => if s ≠ "" then .vstr s else c.value
  | none => c.value

/-- State of the per-row indexing scan: the identity string found so
far and the four signature-bearing cell values (initially `None`). -/
structure RowScan where
  rowUuid : Option String
  d0 : PyVal
  d1 : PyVal
  d2 : PyVal
  d3 : PyVal
  deriving DecidableEq, Repr

/-- The initial per-row scan state. -/
def RowScan.init : RowScan := ⟨none, .vnone, .vnone, .vnone, .vnone⟩

/-- One iteration of the cell loop in the destination-index pass of
`_push_to_sheet`. -/
def scanCell (uuidCol c0 c1 c2 c3 : Option ℕ) (st : RowScan) (c : SCell) : RowScan :=
  let st := if colHit uuidCol c && c.value.truthy then
              { st with rowUuid := some (pyStrip c.value.pyStr) } else st
  let st := if colHit c0 c then { st with d0 := cellSigVal c } else st
  let st := if colHit c1 c then { st with d1 := cellSigVal c } else st
  let st := if colHit c2 c then { st with d2 := cellSigVal c } else st
  if colHit c3 c then { st with d3 := cellSigVal c } else st

/-- The final scan state of one destination row. -/
def rowScan (uuidCol c0 c1 c2 c3 : Option ℕ) (r : SRow) : RowScan :=
  r.cells.foldl (scanCell uuidCol c0 c1 c2 c3) RowScan.init

/-- The signature a destination row is indexed under. -/
def rowSig (uuidCol c0 c1 c2 c3 : Option ℕ) (r : SRow) : Option Sig :=
  let st := rowScan uuidCol c0 c1 c2 c3 r
  makeSignature st.d0 st.d1 st.d2 st.d3

/-- The `uuid_to_row` entry contributed by one row: present only when a
non-empty trimmed identity string was found. -/
def rowUuidEntry (uuidCol c0 c1 c2 c3 : Option ℕ) (r : SRow) : List (String × ℕ) :=
  match (rowScan uuidCol c0 c1 c2 c3 r).rowUuid with
  | some u => if u ≠ "" then [(u, r.id)] else []
  | none => []

/-- Build `uuid_to_row` and `sig_to_row` from the destination rows, in
row order (the indexing loop of `_push_to_sheet`); `none` = the loop
raises on some row.  Each row contributes exactly one signature entry
and at most one identity entry. -/
def buildIndexes (uuidCol c0 c1 c2 c3 : Option ℕ) :
    List SRow → Option (List (String × ℕ) × List (Sig × ℕ))
  | [] => some ([], [])
  | r :: rs =>
    match rowSig uuidCol c0 c1 c2 c3 r with
    | none => none
    | some sg =>
      (buildIndexes uuidCol c0 c1 c2 c3 rs).map (fun acc =>
        (rowUuidEntry uuidCol c0 c1 c2 c3 r ++ acc.1, (sg, r.id) :: acc.2))

/-- A fetched invoice record: a JSON object, an open field map. -/
abbrev Fac := List (String × PyVal)

/-- `fac.get(k)` (a missing field reads as `None`). -/
def fget (fac : Fac) (k : String) : PyVal := (dget fac k).getD .vnone

/-- The cell one mapping rule contributes for a record: skipped when
the destination column is unresolved (or its id falsy) or the source
value is absent; a `date*` source field is routed through
`_iso(str(val))`. -/
def ruleCell (cols : List SColumn) (fac : Fac) (rule : String × String) :
    Option (ℕ × PyVal) :=
  match colMapGet cols (slug rule.2) with
  | none => none
  | some cid =>
    if cid = 0 then none
    else
      let v := fget fac rule.1
      if v = .vnone then none
      else
        let v' := if startsWithStr (pyLower rule.1) "date" then
                    (match isoStr v.pyStr with
                     | none => PyVal.vnone
                     | some s => .vstr s)
                  else v
        some (cid, v')

/-- The cell list built for one record by the rules loop of
`_push_to_sheet`, in rule order. -/
def buildCells (cols : List SColumn) (rules : List (String × String)) (fac : Fac) :
    List (ℕ × PyVal) :=
  rules.filterMap (ruleCell cols fac)

/-- What the reconciliation loop decides for one record. -/
inductive FacAction where
  | skip
  | ins (cells : List (ℕ × PyVal))
  | upd (rowId : ℕ) (cells : List (ℕ × PyVal))
  deriving DecidableEq, Repr

/-- The record's trimmed identity string `str(fac.get("UUID") or "").strip()`. -/
def uuidVal (fac : Fac) : String :=
  pyStrip (PyVal.orElse (fget fac "UUID") (.vstr "")).pyStr

/-- Classify one record against the two indexes; `none` = the Python
body raises (through `_make_signature`). -/
def classifyFac (cols : List SColumn) (rules : List (String × String))
    (uidx : List (String × ℕ)) (sidx : List (Sig × ℕ)) (fac : Fac) :
    Option FacAction :=
  match makeSignature (fget fac "Date") (fget fac "RFC") (fget fac "Total")
      (fget fac "CFDIUse") with
  | none => none
  | some sg =>
    let cells := buildCells cols rules fac
    if cells = [] then some .skip
    else
      let ridU : Option ℕ := if uuidVal fac ≠ "" then dget uidx (uuidVal fac) else none
      let rid : Option ℕ := if optNatTruthy ridU then ridU else dget sidx sg
      match rid with
      | some n => if n ≠ 0 then some (.upd n cells) else some (.ins cells)
      | none => some (.ins cells)

/-- The built-in default mapping rules of `_push_to_sheet`. -/
def defaultRules : List (String × String) :=
  [("UUID", "UUID"), ("Date", "Fecha emisión"), ("RFC", "RFC Receptor"),
   ("Total", "Total"), ("CFDIUse", "Tipo CFDI")]

/-- The resolved signature-bearing column ids of a sheet under a rule
set: identity column and the four signature columns, via
`col_map.get(slug_rules.get(key, ""))`. -/
def sheetCols (sheet : DSheet) (rules : List (String × String)) :
    Option ℕ × Option ℕ × Option ℕ × Option ℕ × Option ℕ :=
  (colMapGet sheet.columns (((dget rules "UUID").map slug).getD ""),
   colMapGet sheet.columns (((dget rules "Date").map slug).getD ""),
   colMapGet sheet.columns (((dget rules "RFC").map slug).getD ""),
   colMapGet sheet.columns (((dget rules "Total").map slug).getD ""),
   colMapGet sheet.columns (((dget rules "CFDIUse").map slug).getD ""))

/-- An insert entry: its cell list (appended at the sheet bottom). -/
abbrev Insert := List (ℕ × PyVal)

/-- An update entry: target row id and cell list. -/
abbrev Update := ℕ × List (ℕ × PyVal)

/-- The per-record loop of `_push_to_sheet`, partitioning a batch into
insert and update lists in batch order; `none` = the loop raises. -/
def reconcileGo (cols : List SColumn) (rules : List (String × String))
    (uidx : List (String × ℕ)) (sidx : List (Sig × ℕ)) :
    List Fac → Option (List Insert × List Update)
  | [] => some ([], [])
  | fac :: rest =>
    match classifyFac cols rules uidx sidx fac with
    | none => none
    | some .skip => reconcileGo cols rules uidx sidx rest
    | some (.ins cs) =>
      (reconcileGo cols rules uidx sidx rest).map (fun acc => (cs :: acc.1, acc.2))
    | some (.upd r cs) =>
      (reconcileGo cols rules uidx sidx rest).map (fun acc => (acc.1, (r, cs) :: acc.2))

/-- The reconciliation pass of `_push_to_sheet` (index the destination,
then partition the batch into inserts and updates); `none` = the Python
pass raises. -/
def reconcile (sheet : DSheet) (rules : List (String × String)) (facs : List Fac) :
    Option (List Insert × List Update) :=
  let (u, c0, c1, c2, c3) := sheetCols sheet rules
  match buildIndexes u c0 c1 c2 c3 sheet.rows with
  | none => none
  | some (uidx, sidx) => reconcileGo sheet.columns rules uidx sidx facs

/-- Write one cell value into a row, as a committed destination write
reflects it: every existing cell of that column takes the new value (a
fresh write carries no display value), and a column the row did not
have yet gains a cell. -/
def setCell (r : SRow) (cid : ℕ) (v : PyVal) : SRow :=
  if r.cells.any (fun c => c.columnId == cid) then
    { r with cells := r.cells.map (fun c =>
        if c.columnId == cid then ⟨cid, v, none⟩ else c) }
  else { r with cells := r.cells ++ [⟨cid, v, none⟩] }

/-- Apply a cell list to a row, in cell order (a later write to the
same column wins). -/
def applyCells (cs : List (ℕ × PyVal)) (r : SRow) : SRow :=
  cs.foldl (fun r p => setCell r p.1 p.2) r

/-- Apply a list of updates to the destination rows, in update order:
each update rewrites the cells of the row(s) bearing its target id. -/
def applyUpdates : List Update → List SRow → List SRow
  | [], rows => rows
  | (rid, cs) :: rest, rows =>
    applyUpdates rest (rows.map (fun r => if r.id = rid then applyCells cs r else r))

/-- The destination state after the run's writes are fully reflected:
updated rows in place, inserted rows appended at the bottom with the
given fresh row ids. -/
def applySheet (sheet : DSheet) (ins : List Insert) (upd : List Update)
    (newIds : List ℕ) : DSheet :=
  { columns := sheet.columns,
    rows := applyUpdates upd sheet.rows ++
            (ins.zip newIds).map (fun p => applyCells p.1 ⟨p.2, []⟩) }

/-- A JSON value, as `json.loads` yields it. -/
inductive JVal where
  | jnull
  | jbool (b : Bool)
  | jnum (q : ℚ)
  | jstr (s : String)
  | jarr (xs : List JVal)
  | jobj (fields : List (String × JVal))

/-- Python truthiness of a JSON value (empty containers are falsy). -/
def jTruthy : JVal → Bool
  | .jnull => false
  | .jbool b => b
  | .jnum q => q != 0
  | .jstr s => s ≠ ""
  | .jarr xs => !xs.isEmpty
  | .jobj fields => !fields.isEmpty

/-- The outcome of `json.loads` on the raw `Reglas JSON` cell: the cell
is absent/falsy, the load raises, or it yields a JSON value. -/
inductive RulesJson where
  | absent
  | malformed
  | parsed (v : JVal)

/-- `.items()` of the rules dict followed by `_slug(dst)` demands
string values; `none` = some value is not a string and the later slug
computation raises. -/
def ruleStrings : List (String × JVal) → Option (List (String × String))
  | [] => some []
  | (k, .jstr s) :: rest => (ruleStrings rest).map (fun l => (k, s) :: l)
  | _ => none

/-- `rules = (json.loads(rules_json).get("map") if rules_json else {})
or default_rules` under its `try/except`, together with the immediately
following `.items()` iteration (line 282): a parse failure, an absent
input, a missing `map` key, a non-object parse result, or a falsy `map`
value all fall back to the default rules; a truthy `map` value that is
not a string-valued object escapes as an error. -/
def resolveRules (raw : RulesJson) : Except Unit (List (String × String)) :=
  match raw with
  | .absent => .ok defaultRules
  | .malformed => .ok defaultRules
  | .parsed v =>
    match v with
    | .jobj fields =>
      match dget fields "map" with
      | none => .ok defaultRules
      | some m =>
        if jTruthy m then
          match m with
          | .jobj mf =>
            (match ruleStrings mf with
             | some rs => .ok rs
             | none => .error ())
          | _ => .error ()
        else .ok defaultRules
    | _ => .ok defaultRules

/-- A display value as the `or` fallback operand. -/
def displayToPy : Option String → PyVal
  | none => .vnone
  | some s => .vstr s

/-- `c.column_id == col` for the scheduler columns (an unresolved
column, `None`, matches no cell; no truthiness guard here). -/
def jobColMatch (o : Option ℕ) (c : SCell) : Bool :=
  match o with
  | some n => c.columnId == n
  | none => false

/-- Days from 1970-01-01 for a civil date (Gregorian, year ≥ 1). -/
def daysFromCivil (y m d : ℕ) : ℤ :=
  let y' := y - (if m ≤ 2 then 1 else 0)
  let era := y' / 400
  let yoe := y' % 400
  let doy := (153 * (m + (if m > 2 then 0 else 12) - 3) + 2) / 5 + d - 1
  let doe := yoe * 365 + yoe / 4 - yoe / 100 + doy
  (era * 146097 + doe : ℤ) - 719468

/-- America/Mexico_City modelled as fixed UTC−6 (the zone abolished DST
in 2022; the service compares timestamps it wrote itself, so historical
DST transitions are immaterial). Offset in seconds. -/
def mxOffset : ℤ := -21600

/-- Parse the time-of-day tail `HH:MM[:SS[.ffffff]][±HH:MM]` of an ISO
datetime; gives seconds into the day and the explicit UTC offset in
seconds, if any. -/
def parseTimeTail (cs : List Char) : Option (ℚ × Option ℤ) :=
  let two : Char → Char → Option ℕ := fun a b =>
    if a.isDigit && b.isDigit then some ((a.toNat - 48) * 10 + (b.toNat - 48)) else none
  match cs with
  | h1 :: h2 :: ':' :: m1 :: m2 :: rest =>
    match two h1 h2, two m1 m2 with
    | some h, some mi =>
      if h ≤ 23 ∧ mi ≤ 59 then
        let (sec, rest2) : ℚ × List Char :=
          match rest with
          | ':' :: s1 :: s2 :: rest' =>
            match two s1 s2 with
            | some s =>
              if s ≤ 59 then
                match rest' with
                | '.' :: frs =>
                  let (f, k, rest'') := digitsAcc 0 0 frs
                  if 1 ≤ k ∧ k ≤ 6 then (mkRat (s * 10 ^ k + f : ℕ) (10 ^ k), rest'')
                  else ((s : ℚ), '.' :: frs)
                | _ => ((s : ℚ), rest')
              else (0, ':' :: s1 :: s2 :: rest')
            | none => (0, ':' :: s1 :: s2 :: rest')
          | _ => (0, rest)
        let base : ℚ := qAdd ((h * 3600 + mi * 60 : ℕ) : ℚ) sec
        match rest2 with
        | [] => some (base, none)
        | sgn :: o1 :: o2 :: ':' :: o3 :: o4 :: [] =>
          if sgn = '+' ∨ sgn = '-' then
            match two o1 o2, two o3 o4 with
            | some oh, some om =>
              if oh ≤ 23 ∧ om ≤ 59 then
                let off : ℤ := (oh * 3600 + om * 60 : ℕ)
                some (base, some (if sgn = '-' then -off else off))
              else none
            | _, _ => none
          else none
        | _ => none
      else none
    | _, _ => none
  | _ => none

/-- `datetime.datetime.fromisoformat` on the forms the service meets:
a dashed date, optionally followed by `T` or a space and a time tail.
The result is an instant in epoch seconds; a naive timestamp is
interpreted in America/Mexico_City, an explicit offset is honoured
(`astimezone` then preserves the instant). -/
def fromIsoDateTime (s : String) : Option ℚ :=
  let cs := s.toList
  let datePart := String.mk (cs.take 10)
  match parseIsoDate datePart with
  | none => none
  | some (y, m, d) =>
    let dayS : ℚ := ((daysFromCivil y m d * 86400 : ℤ) : ℚ)
    match cs.drop 10 with
    | [] => some (qSub dayS (mxOffset : ℚ))
    | sep :: rest =>
      if sep = 'T' ∨ sep = ' ' then
        match parseTimeTail rest with
        | some (tod, some off) => some (qSub (qAdd dayS tod) (off : ℚ))
        | some (tod, none) => some (qSub (qAdd dayS tod) (mxOffset : ℚ))
        | none => none
      else none

/-- `_parse_iso(s)`: a falsy argument gives `None`; every `Z` is
stripped before parsing; any exception inside the `try` (a non-string
argument, an unparsable string) yields `None` instead of raising. -/
def parsePyIso (v : PyVal) : Option ℚ :=
  if ¬v.truthy then none
  else match v with
    | .vstr s => fromIsoDateTime (strReplace s "Z" "")
    | _ => none

/-- One iteration of the cell loop of `_job_runner`: take
`intervalo = int(value)`, degrading to 0 on an exception, from the
interval column, and `ult_ejec = _parse_iso(value or display)` from the
last-execution column. -/
def jobStep (colInt colLast : Option ℕ) (st : ℤ × Option ℚ) (c : SCell) :
    ℤ × Option ℚ :=
  let st := if jobColMatch colInt c && c.value ≠ .vnone then
              (((pyInt c.value).getD 0 : ℤ), st.2) else st
  if jobColMatch colLast c then
    (st.1, parsePyIso (PyVal.orElse c.value (displayToPy c.displayValue)))
  else st

/-- The per-row state extraction of `_job_runner`: fold over the cells
(a later cell of the same column wins), starting from interval 0 and no
last execution. -/
def scanJobRow (colInt colLast : Option ℕ) (cells : List SCell) : ℤ × Option ℚ :=
  cells.foldl (jobStep colInt colLast) (0, none)

/-- `mins_passed is None or mins_passed >= intervalo`, with
`mins_passed = (now - ult).total_seconds() / 60` when a last execution
exists. -/
def dueDecision (now : ℚ) (intervalo : ℤ) (ult : Option ℚ) : Bool :=
  match ult with
  | none => true
  | some t => qLe (intervalo : ℚ) (qDiv (qSub now t) 60)

/-- Whether a configuration row triggers a cycle on a tick at instant
`now`: a non-positive interval never does; otherwise the due check
decides. -/
def rowTriggers (colInt colLast : Option ℕ) (cells : List SCell) (now : ℚ) : Bool :=
  let st := scanJobRow colInt colLast cells
  decide (0 < st.1) && dueDecision now st.1 st.2

/-- A configuration row as `rows_as_dict` returns it: column title to
display-or-raw value. -/
abbrev ConfigRow := List (String × PyVal)

/-- `row.get(k)` on a configuration row. -/
def rget (row : ConfigRow) (k : String) : PyVal := (dget row k).getD .vnone

/-- `base_url[:-8] + "Invoices"` and `/v1/ → /api/` normalisation of
`_traer_facturas_por_empresas`. -/
def urlFixups (base : String) : String :=
  let b := if endsWithStr (pyLower base) "/invoices" then
             String.mk (base.toList.take (base.toList.length - 8)) ++ "Invoices"
           else base
  if containsSub b "/v1/" ∧ ¬containsSub b "/api/" then
    strReplace b "/v1/" "/api/"
  else b

/-- `build_url(base, filtro)`: attach the cleaned filter expression as
a `$filter=` query component. -/
def buildUrl (base : String) (filtro : String) : String :=
  if filtro = "" then base
  else
    let clean := pyStrip filtro
    let clean := if startsWithStr clean "?" then String.mk (clean.toList.drop 1)
                 else clean
    let clean := if ¬startsWithStr (pyLower clean) "$filter=" then
                   "$filter=" ++ clean
                 else clean
    let sep := if base.toList.contains '?' then "&" else "?"
    base ++ sep ++ clean

/-- One fetch task the aggregator registered: its label (dict key of
the result mapping) and the request parameters of its `bind_get_all`
call. -/
structure Attempt where
  label : PyVal
  url : String
  token : PyVal
  filtro : String
  deriving DecidableEq, Repr

/-- `id_fila and row.get("ID") != id_fila`. -/
def skipByFilter (idFila : Option String) (row : ConfigRow) : Bool :=
  match idFila with
  | some i => i ≠ "" && !(rget row "ID").pyEq (.vstr i)
  | none => false

/-- One iteration of the registration loop of
`_traer_facturas_por_empresas`.  `none` = the iteration raises (a
truthy non-string `Filtro` or `API URL` cell); `some none` = the row is
skipped (filtered out, or no token — logged, not attempted);
`some (some a)` = a fetch task is registered. -/
def processRow (idFila : Option String) (row : ConfigRow) : Option (Option Attempt) :=
  if skipByFilter idFila row then some none
  else
    let token := rget row "API Token"
    let baseV := PyVal.orElse (rget row "API URL")
        (.vstr "https://api.bind.com.mx/api/Invoices")
    match PyVal.orElse (rget row "Filtro") (.vstr "") with
    | .vstr filtro0 =>
      let filtro := pyStrip filtro0
      let cliente := PyVal.orElse (rget row "Cliente")
          (.vstr ("ID-" ++ (rget row "ID").pyStr))
      if ¬token.truthy then some none
      else
        match baseV with
        | .vstr base => some (some ⟨cliente, urlFixups base, token, filtro⟩)
        | _ => none
    | _ => none

/-- The registration loop over the whole configuration: the attempts in
row order; `none` = some iteration raises. -/
def attemptsOf (idFila : Option String) : List ConfigRow → Option (List Attempt)
  | [] => some []
  | row :: rest =>
    match processRow idFila row with
    | none => none
    | some none => attemptsOf idFila rest
    | some (some a) => (attemptsOf idFila rest).map (fun l => a :: l)

/-- The outcome of one fetch task (the whole paginated
`bind_get_all` call): the accumulated records, or the captured
exception (transport error, timeout, non-2xx status), tagged by a
code.  `asyncio.gather(..., return_exceptions=True)` returns exactly
one such outcome per task. -/
inductive FetchOut where
  | ok (recs : List Fac)
  | exc (e : ℕ)
  deriving DecidableEq, Repr

/-- A fetch oracle: the outcome of the task with the given first-page
URL, bearer token and filter expression.  The network is outside the
embedding; an oracle fixes each task's outcome independently of its
siblings. -/
abbrev FetchOracle := String → PyVal → String → FetchOut

/-- One entry of the returned mapping: the captured error object, or
`{"count": len(records)}`. -/
inductive SyncRes where
  | errRes (e : ℕ)
  | countRes (n : ℕ)
  deriving DecidableEq, Repr

/-- The mapping entry an attempt produces under an oracle. -/
def attemptResult (fetch : FetchOracle) (a : Attempt) : PyVal × SyncRes :=
  (a.label,
   match fetch (buildUrl a.url a.filtro) a.token a.filtro with
   | .ok recs => .countRes recs.length
   | .exc e => .errRes e)

/-- `_traer_facturas_por_empresas` without `push_mode`: register one
task per configured account with a token, gather all outcomes (a
captured exception never cancels a sibling), and return the per-label
result mapping; `none` = the registration loop raises. -/
def traerFacturas (cfg : List ConfigRow) (fetch : FetchOracle)
    (idFila : Option String) : Option (List (PyVal × SyncRes)) :=
  (attemptsOf idFila cfg).map (fun atts => atts.map (attemptResult fetch))

/-- A destination sheet whose columns resolve every default rule
(ids 1–5), with no rows yet. -/
def emptyDefaultSheet : DSheet :=
  ⟨[⟨1, "UUID"⟩, ⟨2, "Fecha emisión"⟩, ⟨3, "RFC Receptor"⟩, ⟨4, "Total"⟩,
    ⟨5, "Tipo CFDI"⟩], []⟩

/-- The source record of the §8 scenario:
`{UUID:"A1", Date:"2025-07-01", RFC:"abc123", Total:100.004, CFDIUse:"G01"}`. -/
def scenarioFac : Fac :=
  [("UUID", .vstr "A1"), ("Date", .vstr "2025-07-01"), ("RFC", .vstr "abc123"),
   ("Total", .vnum (mkRat 25001 250)), ("CFDIUse", .vstr "G01")]

/-- The cell list the scenario record maps to under the default rules
on `emptyDefaultSheet` (the Total cell carries the raw 100.004). -/
def scenarioCells : List (ℕ × PyVal) :=
  [(1, .vstr "A1"), (2, .vstr "2025-07-01"), (3, .vstr "abc123"),
   (4, .vnum (mkRat 25001 250)), (5, .vstr "G01")]

/-- A second record with its own identity, used to re-run
reconciliation after a first pass. -/
def secondFac : Fac :=
  [("UUID", .vstr "B2"), ("Date", .vstr "2025-07-02"), ("RFC", .vstr "XYZ9"),
   ("Total", .vnum 55), ("CFDIUse", .vstr "G03")]

/-- The cell list `secondFac` maps to under the default rules on
`emptyDefaultSheet`. -/
def secondCells : List (ℕ × PyVal) :=
  [(1, .vstr "B2"), (2, .vstr "2025-07-02"), (3, .vstr "XYZ9"),
   (4, .vnum 55), (5, .vstr "G03")]

/-- A destination sheet with one row (id 1) holding identity `"X"` and
the signature `("2025-01-01", "AAA", 1, "G")`. -/
def oneRowSheet : DSheet :=
  ⟨[⟨1, "UUID"⟩, ⟨2, "Fecha emisión"⟩, ⟨3, "RFC Receptor"⟩, ⟨4, "Total"⟩,
    ⟨5, "Tipo CFDI"⟩],
   [⟨1, [⟨1, .vstr "X", none⟩, ⟨2, .vstr "2025-01-01", none⟩,
         ⟨3, .vstr "AAA", none⟩, ⟨4, .vnum 1, none⟩, ⟨5, .vstr "G", none⟩]⟩]⟩

/-- A record whose identity `"X"` matches `oneRowSheet`'s row but whose
signature does not. -/
def facMatchById : Fac :=
  [("UUID", .vstr "X"), ("Date", .vstr "2024-05-05"), ("RFC", .vstr "BBB"),
   ("Total", .vnum 2), ("CFDIUse", .vstr "H")]

/-- A record with no fields at all: every rule finds `None`, so it maps
to zero cells and the loop skips it. -/
def emptyFac : Fac := []

/-- The cell list `facMatchById` maps to under the default rules on the
five default columns. -/
def idCells : List (ℕ × PyVal) :=
  [(1, .vstr "X"), (2, .vstr "2024-05-05"), (3, .vstr "BBB"),
   (4, .vnum 2), (5, .vstr "H")]

/-- A record whose identity `"Y"` matches nothing but whose signature
equals `oneRowSheet`'s row's signature. -/
def facMatchBySig : Fac :=
  [("UUID", .vstr "Y"), ("Date", .vstr "2025-01-01"), ("RFC", .vstr "AAA"),
   ("Total", .vnum 1), ("CFDIUse", .vstr "G")]

/-- A configuration of three accounts for the aggregator scenario; the
second account's token is `"T2"`. -/
def threeAccounts : List ConfigRow :=
  [[("ID", .vstr "1"), ("Cliente", .vstr "Uno"), ("API Token", .vstr "T1")],
   [("ID", .vstr "2"), ("Cliente", .vstr "Dos"), ("API Token", .vstr "T2")],
   [("ID", .vstr "3"), ("Cliente", .vstr "Tres"), ("API Token", .vstr "T3")]]

/-- An oracle under which the second account's fetch times out and the
others return one and three records. -/
def oracleTimeout2 : FetchOracle := fun _ token _ =>
  if token = .vstr "T2" then .exc 7
  else if token = .vstr "T1" then .ok [scenarioFac]
  else .ok [scenarioFac, secondFac, facMatchById]

/-- An oracle differing from `oracleTimeout2` on every account except
the second. -/
def oracleOthersChanged : FetchOracle := fun _ token _ =>
  if token = .vstr "T2" then .exc 7 else .exc 99

/-- The fetch tasks `threeAccounts` registers (the default base URL,
already fixed up, an empty filter, and each account's token). -/
def threeAttempts : List Attempt :=
  [⟨.vstr "Uno", "https://api.bind.com.mx/api/Invoices", .vstr "T1", ""⟩,
   ⟨.vstr "Dos", "https://api.bind.com.mx/api/Invoices", .vstr "T2", ""⟩,
   ⟨.vstr "Tres", "https://api.bind.com.mx/api/Invoices", .vstr "T3", ""⟩]

/-- A scheduler configuration row: interval 30 minutes (column 1), last
execution `2025-07-01T00:00:00` (column 2). -/
def jobCells30 : List SCell :=
  [⟨1, .vnum 30, none⟩, ⟨2, .vstr "2025-07-01T00:00:00", none⟩]

/-- The parsed last-execution instant of `jobCells30`. -/
def jobT0 : ℚ := ((scanJobRow (some 1) (some 2) jobCells30).2).getD 0

/-- A scheduler configuration row whose last-execution cell holds a
string that is not ISO-8601. -/
def jobCellsGarbage : List SCell :=
  [⟨1, .vnum 15, none⟩, ⟨2, .vstr "hace rato", none⟩]

/-- Three destination rows for the index-shadowing scenario: rows 1 and
2 share one signature, row 3 has no cells at all. -/
def shadowRows : List SRow :=
  [⟨1, [⟨2, .vstr "2025-01-01", none⟩, ⟨3, .vstr "AAA", none⟩,
        ⟨4, .vnum 1, none⟩, ⟨5, .vstr "G", none⟩]⟩,
   ⟨2, [⟨2, .vstr "2025-01-01", none⟩, ⟨3, .vstr "AAA", none⟩,
        ⟨4, .vnum 1, none⟩, ⟨5, .vstr "G", none⟩]⟩,
   ⟨3, []⟩]

/-- The signature index `shadowRows` builds (row 2 shadows row 1; the
cell-less row 3 indexes under the default tuple). -/
def shadowSidx : List (Sig × ℕ) :=
  [((.vstr "2025-01-01", "AAA", 1, "G"), 1),
   ((.vstr "2025-01-01", "AAA", 1, "G"), 2),
   ((.vstr "", "", 0, ""), 3)]

/-! ## Bridges from the kernel-reducible rational helpers to the
standard operations -/

theorem qSub_eq (a b : ℚ) : qSub a b = a - b := by
  have hb : ((a.den : ℤ)) ≠ 0 := by exact_mod_cast a.den_nz
  have hd : ((b.den : ℤ)) ≠ 0 := by exact_mod_cast b.den_nz
  rw [qSub, Rat.mkRat_eq_divInt]
  conv_rhs => rw [← Rat.num_divInt_den a, ← Rat.num_divInt_den b,
    Rat.divInt_sub_divInt _ _ hb hd]
  push_cast
  ring_nf

theorem qDiv_eq (a b : ℚ) : qDiv a b = a / b := by
  rcases eq_or_ne b 0 with rfl | hb0
  · simp [qDiv, Rat.mkRat_eq_divInt]
  · rw [qDiv]
    split_ifs with hsgn
    · rw [Rat.mkRat_eq_divInt, Rat.div_def', Nat.cast_mul,
        Int.natAbs_of_nonneg hsgn]
    · rw [Rat.mkRat_eq_divInt, Rat.div_def', Nat.cast_mul,
        Int.ofNat_natAbs_of_nonpos (le_of_not_le (by simpa using hsgn)),
        mul_neg, Rat.divInt_neg, neg_neg]

theorem qLe_iff (a b : ℚ) : qLe a b = true ↔ a ≤ b := by
  have ha : (0 : ℚ) < (a.den : ℚ) := by exact_mod_cast a.den_pos
  have hb : (0 : ℚ) < (b.den : ℚ) := by exact_mod_cast b.den_pos
  rw [qLe, decide_eq_true_eq]
  constructor
  · intro h
    rw [← Rat.num_div_den a, ← Rat.num_div_den b, div_le_div_iff₀ ha hb]
    exact_mod_cast h
  · intro h
    have h2 : (a.num : ℚ) / (a.den : ℚ) ≤ (b.num : ℚ) / (b.den : ℚ) := by
      rw [Rat.num_div_den a, Rat.num_div_den b]; exact h
    exact_mod_cast (div_le_div_iff₀ ha hb).mp h2

/-! ## General dictionary lemmas -/

theorem dget_eq_none {α β : Type} [DecidableEq α] {l : List (α × β)} {k : α}
    (h : ∀ p ∈ l, p.1 ≠ k) : dget l k = none := by
  induction l with
  | nil => rfl
  | cons p l ih =>
    obtain ⟨a, b⟩ := p
    have ha : a ≠ k := h (a, b) (List.mem_cons_self _ _)
    have : dget l k = none := ih (fun q hq => h q (List.mem_cons_of_mem _ hq))
    simp only [dget, this]
    simp [Ne.symm ha]

theorem dget_isSome_of_mem {α β : Type} [DecidableEq α] {l : List (α × β)}
    {k : α} {v : β} (h : (k, v) ∈ l) : (dget l k).isSome := by
  induction l with
  | nil => simp at h
  | cons p l ih =>
    obtain ⟨a, b⟩ := p
    rcases List.mem_cons.mp h with heq | hmem
    · obtain ⟨rfl, rfl⟩ := Prod.mk.injEq .. ▸ heq
      cases hd : dget l k <;> simp [dget, hd]
    · have hs := ih hmem
      cases hd : dget l k with
      | some w => simp [dget, hd]
      | none => simp [hd] at hs

theorem mem_of_dget {α β : Type} [DecidableEq α] {l : List (α × β)}
    {k : α} {v : β} (h : dget l k = some v) : (k, v) ∈ l := by
  induction l with
  | nil => simp [dget] at h
  | cons p l ih =>
    obtain ⟨a, b⟩ := p
    simp only [dget] at h
    cases hd : dget l k with
    | some w =>
      rw [hd] at h
      exact List.mem_cons_of_mem _ (ih (hd.trans h))
    | none =>
      rw [hd] at h
      by_cases hk : k = a
      · simp [hk] at h
        subst hk
        subst h
        exact List.mem_cons_self _ _
      · simp [hk] at h

/-! ## Identity & Signature Module (C6 support) -/

theorem sigRfc_vstr (r : String) : sigRfc (.vstr r) = some (pyUpper (pyStrip r)) := by
  by_cases h : r = ""
  · simp [sigRfc, PyVal.orElse, PyVal.truthy, h]
  · simp [sigRfc, PyVal.orElse, PyVal.truthy, h]

theorem sigCfdi_vstr (c : String) :
    (PyVal.orElse (.vstr c) (.vstr "")).pyStr = c := by
  by_cases h : c = ""
  · simp [PyVal.orElse, PyVal.truthy, PyVal.pyStr, h]
  · simp [PyVal.orElse, PyVal.truthy, PyVal.pyStr, h]

/-- C6: `_make_signature` is a deterministic pure function of its four
arguments producing `(isoDate, normalizedTaxId, roundedTotal,
documentTypeString)`: a numeric total is rounded to 2 decimal places, a
non-numeric (unparsable string) or missing total coerces to `0.0`, the
tax id is trimmed and upper-cased, and a missing date yields the empty
string rather than `None`. -/
theorem c6_signature_semantics (d x1 x2 x3 x4 : PyVal) (r c s : String) (q : ℚ)
    (hs : parseFloat s = none) :
    (∀ y1 y2 y3 y4 : PyVal, x1 = y1 → x2 = y2 → x3 = y3 → x4 = y4 →
       makeSignature x1 x2 x3 x4 = makeSignature y1 y2 y3 y4) ∧
    makeSignature .vnone (.vstr r) (.vnum q) (.vstr c)
      = some (.vstr "", pyUpper (pyStrip r), round2 q, pyStrip c) ∧
    makeSignature .vnone (.vstr r) (.vstr s) (.vstr c)
      = some (.vstr "", pyUpper (pyStrip r), 0, pyStrip c) ∧
    makeSignature d (.vstr r) .vnone (.vstr c)
      = some (sigDate d, pyUpper (pyStrip r), 0, pyStrip c) := by
  refine ⟨fun y1 y2 y3 y4 h1 h2 h3 h4 => by rw [h1, h2, h3, h4], ?_, ?_, ?_⟩
  · simp [makeSignature, sigRfc_vstr, sigCfdi_vstr, coerceTotal, pyFloat]
    rfl
  · simp [makeSignature, sigRfc_vstr, sigCfdi_vstr, coerceTotal, pyFloat, hs]
    rfl
  · simp [makeSignature, sigRfc_vstr, sigCfdi_vstr, coerceTotal, pyFloat]

/-! ## Scheduler due-ness (C5, C10) -/

theorem jobStep_snd (colInt colLast : Option ℕ) (st : ℤ × Option ℚ) (c : SCell) :
    (jobStep colInt colLast st c).2 =
      if jobColMatch colLast c then
        parsePyIso (PyVal.orElse c.value (displayToPy c.displayValue))
      else st.2 := by
  unfold jobStep
  split_ifs
  all_goals rfl

theorem foldl_jobStep_snd_none (colInt colLast : Option ℕ) (cells : List SCell)
    (st : ℤ × Option ℚ) (hst : st.2 = none)
    (hlast : ∀ c ∈ cells, jobColMatch colLast c = true →
      parsePyIso (PyVal.orElse c.value (displayToPy c.displayValue)) = none) :
    (cells.foldl (jobStep colInt colLast) st).2 = none := by
  induction cells generalizing st with
  | nil => simpa using hst
  | cons c rest ih =>
    rw [List.foldl_cons]
    refine ih _ ?_ (fun x hx => hlast x (List.mem_cons_of_mem _ hx))
    rw [jobStep_snd]
    split_ifs with hc
    · exact hlast c (List.mem_cons_self _ _) hc
    · exact hst

/-- C5: for a configuration row with a positive extracted interval, the
row triggers a cycle at instant `now` iff the last-execution timestamp
is absent or the elapsed minutes reach the interval; in particular with
interval 30, a last execution exactly 1800 seconds (30 minutes) ago is
due, and one 1799 seconds (29 min 59 s) ago is not. -/
theorem c5_dueness_boundary (colInt colLast : Option ℕ) (cells : List SCell)
    (now t : ℚ) (hi : 0 < (scanJobRow colInt colLast cells).1) :
    (rowTriggers colInt colLast cells now = true ↔
      (scanJobRow colInt colLast cells).2 = none ∨
      ∃ t', (scanJobRow colInt colLast cells).2 = some t' ∧
        ((scanJobRow colInt colLast cells).1 : ℚ) ≤ (now - t') / 60) ∧
    ((scanJobRow colInt colLast cells).1 = 30 →
      (scanJobRow colInt colLast cells).2 = some t →
      rowTriggers colInt colLast cells (t + 1800) = true ∧
      rowTriggers colInt colLast cells (t + 1799) = false) := by
  constructor
  · simp only [rowTriggers]
    cases hu : (scanJobRow colInt colLast cells).2 with
    | none => simp [dueDecision, hi]
    | some t' =>
      simp only [hu, dueDecision]
      rw [qSub_eq, qDiv_eq]
      simp [hi, qLe_iff]
  · intro h30 ht
    have q1 : qLe (30 : ℚ) (qDiv (qSub (t + 1800) t) 60) = true := by
      rw [qSub_eq, qDiv_eq, qLe_iff]
      have : t + 1800 - t = (1800 : ℚ) := by ring
      rw [this]
      norm_num
    have q2 : qLe (30 : ℚ) (qDiv (qSub (t + 1799) t) 60) = false := by
      rw [Bool.eq_false_iff, Ne, qLe_iff, qSub_eq, qDiv_eq]
      have : t + 1799 - t = (1799 : ℚ) := by ring
      rw [this]
      norm_num
    constructor
    · simp only [rowTriggers, h30, ht, dueDecision]
      simp [q1]
    · simp only [rowTriggers, h30, ht, dueDecision]
      simp [q2]

/-- C5 witness: the concrete row `jobCells30` (interval 30, last
execution parsed to epoch second 1751349600) is due 1800 seconds later
and not due at 1799 seconds. -/
theorem c5_dueness_boundary_witness :
    rowTriggers (some 1) (some 2) jobCells30 (1751349600 + 1800) = true ∧
    rowTriggers (some 1) (some 2) jobCells30 (1751349600 + 1799) = false :=
  (c5_dueness_boundary (some 1) (some 2) jobCells30 0 1751349600
      (by decide)).2 (by decide) (by decide)

/-- C10: a configuration row whose last-execution cell values all fail
`_parse_iso` (for a stored string, one that is not ISO-8601 — the
parser returns `None` instead of raising) is extracted with an absent
last execution, so with a positive interval it is due on every tick. -/
theorem c10_unparsable_last_exec_due (colInt colLast : Option ℕ)
    (cells : List SCell) (now : ℚ)
    (hlast : ∀ c ∈ cells, jobColMatch colLast c = true →
      parsePyIso (PyVal.orElse c.value (displayToPy c.displayValue)) = none)
    (hi : 0 < (scanJobRow colInt colLast cells).1) :
    (scanJobRow colInt colLast cells).2 = none ∧
    rowTriggers colInt colLast cells now = true := by
  have h2 : (scanJobRow colInt colLast cells).2 = none :=
    foldl_jobStep_snd_none colInt colLast cells (0, none) rfl hlast
  refine ⟨h2, ?_⟩
  simp only [rowTriggers, h2, dueDecision]
  simp [hi]

/-- C10 witness: the row `jobCellsGarbage` (interval 15, last-execution
cell `"hace rato"`) parses to no timestamp and triggers at an arbitrary
instant. -/
theorem c10_unparsable_last_exec_due_witness :
    (scanJobRow (some 1) (some 2) jobCellsGarbage).2 = none ∧
    rowTriggers (some 1) (some 2) jobCellsGarbage 12345 = true :=
  c10_unparsable_last_exec_due (some 1) (some 2) jobCellsGarbage 12345
    (by decide) (by decide)

/-- C6 witness: the signature of a concrete well-formed input. -/
theorem c6_signature_semantics_witness :
    makeSignature .vnone (.vstr " ab ") (.vnum (mkRat 1 3)) (.vstr " G1 ")
      = some (.vstr "", "AB", mkRat 33 100, "G1") :=
  ((c6_signature_semantics .vnone .vnone .vnone .vnone .vnone " ab " " G1 " "abc"
      (mkRat 1 3) (by decide)).2.1).trans (by decide)

/-! ## Rule resolution (C7) -/

/-- C7 counterexample: the rules input `{"map": 5}` is parsable JSON
that yields no `map` *object*, yet the default rule set is NOT used and
an error escapes: `5` is truthy, so `rules = 5`, and the slug pass over
`rules.items()` raises. -/
theorem c7_counterexample_nonobject_map :
    resolveRules (.parsed (.jobj [("map", .jnum 5)])) = .error () ∧
    resolveRules (.parsed (.jobj [("map", .jnum 5)])) ≠ .ok defaultRules := by
  have h1 : resolveRules (.parsed (.jobj [("map", .jnum 5)])) = .error () := rfl
  exact ⟨h1, fun h => by rw [h1] at h; exact Except.noConfusion h⟩

/-- C7 (amended): rule resolution falls back to the built-in default
rule set, without error, when the input is absent, unparsable, parses
to a non-object, lacks a `map` key, or has a falsy `map` value (null,
false, 0, empty string/array/object); a non-empty `map` object with
string values yields exactly that map.  (A truthy non-object `map`
value, or a map with a non-string value, instead raises downstream —
see the counterexample.) -/
theorem c7_rules_fallback :
    (resolveRules .absent = .ok defaultRules) ∧
    (resolveRules .malformed = .ok defaultRules) ∧
    (∀ v : JVal, (∀ f, v ≠ .jobj f) → resolveRules (.parsed v) = .ok defaultRules) ∧
    (∀ f, dget f "map" = none → resolveRules (.parsed (.jobj f)) = .ok defaultRules) ∧
    (∀ f m, dget f "map" = some m → jTruthy m = false →
       resolveRules (.parsed (.jobj f)) = .ok defaultRules) ∧
    (∀ f mf rs, dget f "map" = some (.jobj mf) → mf ≠ [] →
       ruleStrings mf = some rs →
       resolveRules (.parsed (.jobj f)) = .ok rs) := by
  refine ⟨rfl, rfl, ?_, ?_, ?_, ?_⟩
  · intro v hv
    cases v with
    | jobj f => exact absurd rfl (hv f)
    | jnull => rfl
    | jbool b => rfl
    | jnum q => rfl
    | jstr s => rfl
    | jarr xs => rfl
  · intro f h
    simp [resolveRules, h]
  · intro f m hm hfalse
    simp [resolveRules, hm, hfalse]
  · intro f mf rs hm hne hrs
    simp [resolveRules, hm, jTruthy, hne, hrs]

/-- C7 witness: a parsed `{"map": {"UUID": "Folio"}}` resolves to
exactly that map. -/
theorem c7_rules_fallback_witness :
    resolveRules (.parsed (.jobj [("map", .jobj [("UUID", .jstr "Folio")])]))
      = .ok [("UUID", "Folio")] :=
  c7_rules_fallback.2.2.2.2.2 [("map", .jobj [("UUID", .jstr "Folio")])]
    [("UUID", .jstr "Folio")] [("UUID", "Folio")] rfl (List.cons_ne_nil _ _) rfl

/-! ## The §8 scenario (C8) -/

/-- C8 (amended): the scenario record reconciled against an empty
destination resolving the default rules yields exactly one insert whose
cells carry UUID `"A1"`, the date normalized to `"2025-07-01"`, the RFC
`"abc123"` passed through unmodified, the RAW total 100.004, and the
CFDI use; upper-casing and 2-decimal rounding apply only inside the
signature computation. -/
theorem c8_scenario_insert :
    reconcile emptyDefaultSheet defaultRules [scenarioFac]
      = some ([scenarioCells], []) ∧
    makeSignature (fget scenarioFac "Date") (fget scenarioFac "RFC")
        (fget scenarioFac "Total") (fget scenarioFac "CFDIUse")
      = some (.vstr "2025-07-01", "ABC123", 100, "G01") := by
  constructor
  · decide
  · decide

/-- C8 counterexample: the insert's Total cell carries the raw 100.004
(= 25001/250), which is NOT the claimed 2-decimal-rounded value. -/
theorem c8_total_cell_not_rounded :
    ∃ cells, reconcile emptyDefaultSheet defaultRules [scenarioFac]
        = some ([cells], []) ∧
      dget cells 4 = some (.vnum (mkRat 25001 250)) ∧
      mkRat 25001 250 ≠ round2 (mkRat 25001 250) :=
  ⟨scenarioCells, by decide, by decide, by decide⟩

/-! ## Reconciliation classification (C1, C2) -/

/-- C1: identity precedence.  For a record whose signature computes and
whose cell list is non-empty: if its trimmed UUID is non-empty and the
identity index maps it to a (nonzero) row, the record is an update
targeting that row — whatever the signature index holds, in particular
when it maps the record's signature to a different row; only when the
identity value is empty or absent from the identity index is the
signature index consulted, an update then targeting the
signature-matched row. -/
theorem c1_identity_precedence (cols : List SColumn)
    (rules : List (String × String)) (uidx : List (String × ℕ))
    (sidx : List (Sig × ℕ)) (fac : Fac) (sg : Sig) (ρ ρ' : ℕ)
    (hsig : makeSignature (fget fac "Date") (fget fac "RFC") (fget fac "Total")
      (fget fac "CFDIUse") = some sg)
    (hcells : buildCells cols rules fac ≠ []) :
    (uuidVal fac ≠ "" → dget uidx (uuidVal fac) = some ρ → ρ ≠ 0 →
      classifyFac cols rules uidx sidx fac
        = some (.upd ρ (buildCells cols rules fac))) ∧
    ((uuidVal fac = "" ∨ dget uidx (uuidVal fac) = none) →
      dget sidx sg = some ρ' → ρ' ≠ 0 →
      classifyFac cols rules uidx sidx fac
        = some (.upd ρ' (buildCells cols rules fac))) := by
  constructor
  · intro h1 h2 h3
    simp only [classifyFac, hsig, if_neg hcells]
    simp [h1, h2, optNatTruthy, h3]
  · intro h1 h2 h3
    simp only [classifyFac, hsig, if_neg hcells]
    rcases h1 with h1 | h1
    · simp [h1, h2, optNatTruthy, h3]
    · simp [h1, h2, optNatTruthy, h3]

/-- C1 witness: the record with identity `"X"` targets the
identity-matched row 1 although the signature index maps its signature
to row 2. -/
theorem c1_identity_precedence_witness :
    classifyFac emptyDefaultSheet.columns defaultRules [("X", 1)]
      [((.vstr "2024-05-05", "BBB", 2, "H"), 2)] facMatchById
      = some (.upd 1 (buildCells emptyDefaultSheet.columns defaultRules
          facMatchById)) :=
  (c1_identity_precedence emptyDefaultSheet.columns defaultRules [("X", 1)]
      [((.vstr "2024-05-05", "BBB", 2, "H"), 2)] facMatchById
      (.vstr "2024-05-05", "BBB", 2, "H") 1 2 (by rfl)
      (by decide)).1 (by decide) (by rfl) (by decide)

theorem classifyFac_skip_imp {cols : List SColumn} {rules : List (String × String)}
    {uidx : List (String × ℕ)} {sidx : List (Sig × ℕ)} {fac : Fac}
    (h : classifyFac cols rules uidx sidx fac = some .skip) :
    buildCells cols rules fac = [] := by
  by_contra hne
  rw [classifyFac] at h
  rcases hm : makeSignature (fget fac "Date") (fget fac "RFC") (fget fac "Total")
      (fget fac "CFDIUse") with _ | sg
  · rw [hm] at h
    exact Option.noConfusion h
  · rw [hm] at h
    simp only [if_neg hne] at h
    split at h
    · split at h
      · simp at h
      · simp at h
    · simp at h

theorem classifyFac_act_cells {cols : List SColumn} {rules : List (String × String)}
    {uidx : List (String × ℕ)} {sidx : List (Sig × ℕ)} {fac : Fac} {act : FacAction}
    (h : classifyFac cols rules uidx sidx fac = some act)
    (hne : buildCells cols rules fac ≠ []) :
    act = .ins (buildCells cols rules fac) ∨
    ∃ ρ, ρ ≠ 0 ∧ act = .upd ρ (buildCells cols rules fac) := by
  rw [classifyFac] at h
  rcases hm : makeSignature (fget fac "Date") (fget fac "RFC") (fget fac "Total")
      (fget fac "CFDIUse") with _ | sg
  · rw [hm] at h
    exact Option.noConfusion h
  · rw [hm] at h
    simp only [if_neg hne] at h
    split at h
    · rename_i n hn
      split at h
      · rename_i hn0
        exact Or.inr ⟨n, hn0, (Option.some.injEq .. ▸ h).symm⟩
      · exact Or.inl (Option.some.injEq .. ▸ h).symm
    · exact Or.inl (Option.some.injEq .. ▸ h).symm

theorem classifyFac_of_empty {cols : List SColumn} {rules : List (String × String)}
    {uidx : List (String × ℕ)} {sidx : List (Sig × ℕ)} {fac : Fac}
    (hempty : buildCells cols rules fac = []) :
    classifyFac cols rules uidx sidx fac = none ∨
    classifyFac cols rules uidx sidx fac = some .skip := by
  rw [classifyFac]
  rcases hm : makeSignature (fget fac "Date") (fget fac "RFC") (fget fac "Total")
      (fget fac "CFDIUse") with _ | sg
  · exact Or.inl rfl
  · exact Or.inr (by simp [hempty])

theorem reconcileGo_partition (cols : List SColumn) (rules : List (String × String))
    (uidx : List (String × ℕ)) (sidx : List (Sig × ℕ)) (facs : List Fac)
    (I : List Insert) (U : List Update)
    (h : reconcileGo cols rules uidx sidx facs = some (I, U)) :
    I.length + U.length
      = (facs.filter (fun f => !(buildCells cols rules f).isEmpty)).length := by
  induction facs generalizing I U with
  | nil =>
    rw [reconcileGo] at h
    obtain ⟨rfl, rfl⟩ := Prod.mk.injEq .. ▸ (Option.some.injEq .. ▸ h)
    simp
  | cons fac rest ih =>
    rw [reconcileGo] at h
    rcases hc : classifyFac cols rules uidx sidx fac with _ | act
    · rw [hc] at h
      exact Option.noConfusion h
    · rw [hc] at h
      cases act with
      | skip =>
        have hempty : buildCells cols rules fac = [] := classifyFac_skip_imp hc
        rw [List.filter_cons_of_neg (by simp [hempty])]
        exact ih _ _ h
      | ins cs =>
        rcases hrest : reconcileGo cols rules uidx sidx rest with _ | ⟨I', U'⟩
        · rw [hrest] at h
          exact Option.noConfusion h
        · rw [hrest] at h
          obtain ⟨rfl, rfl⟩ := Prod.mk.injEq .. ▸ (Option.some.injEq .. ▸ h)
          have hne : buildCells cols rules fac ≠ [] := by
            intro hempty
            rcases @classifyFac_of_empty _ _ uidx sidx _ hempty with
              h' | h'
            · rw [hc] at h'
              exact Option.noConfusion h'
            · rw [hc] at h'
              simp at h'
          rw [List.filter_cons_of_pos (by simp [hne])]
          simp only [List.length_cons]
          have := ih _ _ hrest
          omega
      | upd ρ cs =>
        rcases hrest : reconcileGo cols rules uidx sidx rest with _ | ⟨I', U'⟩
        · rw [hrest] at h
          exact Option.noConfusion h
        · rw [hrest] at h
          obtain ⟨rfl, rfl⟩ := Prod.mk.injEq .. ▸ (Option.some.injEq .. ▸ h)
          have hne : buildCells cols rules fac ≠ [] := by
            intro hempty
            rcases @classifyFac_of_empty _ _ uidx sidx _ hempty with
              h' | h'
            · rw [hc] at h'
              exact Option.noConfusion h'
            · rw [hc] at h'
              simp at h'
          rw [List.filter_cons_of_pos (by simp [hne])]
          simp only [List.length_cons]
          have := ih _ _ hrest
          omega

theorem reconcileGo_filterMap (cols : List SColumn)
    (rules : List (String × String)) (uidx : List (String × ℕ))
    (sidx : List (Sig × ℕ)) (facs : List Fac) (I : List Insert) (U : List Update)
    (h : reconcileGo cols rules uidx sidx facs = some (I, U)) :
    I = facs.filterMap (fun f =>
        match classifyFac cols rules uidx sidx f with
        | some (.ins cs) => some cs
        | _ => none) ∧
    U = facs.filterMap (fun f =>
        match classifyFac cols rules uidx sidx f with
        | some (.upd ρ cs) => some (ρ, cs)
        | _ => none) ∧
    ∀ f ∈ facs, classifyFac cols rules uidx sidx f ≠ none := by
  induction facs generalizing I U with
  | nil =>
    rw [reconcileGo] at h
    obtain ⟨rfl, rfl⟩ := Prod.mk.injEq .. ▸ (Option.some.injEq .. ▸ h)
    exact ⟨rfl, rfl, by simp⟩
  | cons fac rest ih =>
    rw [reconcileGo] at h
    rcases hc : classifyFac cols rules uidx sidx fac with _ | act
    · rw [hc] at h
      exact Option.noConfusion h
    · rw [hc] at h
      cases act with
      | skip =>
        obtain ⟨hI, hU, hall⟩ := ih _ _ h
        refine ⟨?_, ?_, ?_⟩
        · simp only [List.filterMap_cons, hc]
          exact hI
        · simp only [List.filterMap_cons, hc]
          exact hU
        · intro f hf
          rcases List.mem_cons.mp hf with rfl | hf
          · simp [hc]
          · exact hall f hf
      | ins cs =>
        rcases hrest : reconcileGo cols rules uidx sidx rest with _ | ⟨I', U'⟩
        · rw [hrest] at h
          exact Option.noConfusion h
        · rw [hrest] at h
          obtain ⟨rfl, rfl⟩ := Prod.mk.injEq .. ▸ (Option.some.injEq .. ▸ h)
          obtain ⟨hI, hU, hall⟩ := ih _ _ hrest
          refine ⟨?_, ?_, ?_⟩
          · simp only [List.filterMap_cons, hc]
            rw [hI]
          · simp only [List.filterMap_cons, hc]
            exact hU
          · intro f hf
            rcases List.mem_cons.mp hf with rfl | hf
            · simp [hc]
            · exact hall f hf
      | upd ρ cs =>
        rcases hrest : reconcileGo cols rules uidx sidx rest with _ | ⟨I', U'⟩
        · rw [hrest] at h
          exact Option.noConfusion h
        · rw [hrest] at h
          obtain ⟨rfl, rfl⟩ := Prod.mk.injEq .. ▸ (Option.some.injEq .. ▸ h)
          obtain ⟨hI, hU, hall⟩ := ih _ _ hrest
          refine ⟨?_, ?_, ?_⟩
          · simp only [List.filterMap_cons, hc]
            exact hI
          · simp only [List.filterMap_cons, hc]
            rw [hU]
          · intro f hf
            rcases List.mem_cons.mp hf with rfl | hf
            · simp [hc]
            · exact hall f hf

/-- C2: the reconciliation pass partitions the batch totally and
disjointly — whenever the pass completes, the number of insert entries
plus the number of update entries equals the number of source records
with at least one mapped cell; moreover the insert list and the update
list are exactly the batch-ordered projections of the per-record
classification (so each record contributes one entry to at most one of
the two lists), a record mapping to zero cells is classified as a skip
and produces neither entry, and a record with at least one mapped cell
is classified as an insert or as an update, never both. -/
theorem c2_partition (sheet : DSheet) (rules : List (String × String))
    (facs : List Fac) (I : List Insert) (U : List Update)
    (h : reconcile sheet rules facs = some (I, U)) :
    I.length + U.length
      = (facs.filter (fun f => !(buildCells sheet.columns rules f).isEmpty)).length ∧
    ∃ uidx sidx,
      buildIndexes (sheetCols sheet rules).1 (sheetCols sheet rules).2.1
        (sheetCols sheet rules).2.2.1 (sheetCols sheet rules).2.2.2.1
        (sheetCols sheet rules).2.2.2.2 sheet.rows = some (uidx, sidx) ∧
      I = facs.filterMap (fun f =>
        match classifyFac sheet.columns rules uidx sidx f with
        | some (.ins cs) => some cs
        | _ => none) ∧
      U = facs.filterMap (fun f =>
        match classifyFac sheet.columns rules uidx sidx f with
        | some (.upd ρ cs) => some (ρ, cs)
        | _ => none) ∧
      ∀ f ∈ facs,
        (buildCells sheet.columns rules f = [] →
          classifyFac sheet.columns rules uidx sidx f = some .skip) ∧
        (buildCells sheet.columns rules f ≠ [] →
          (∃ cs, classifyFac sheet.columns rules uidx sidx f = some (.ins cs)) ∨
          (∃ ρ cs, classifyFac sheet.columns rules uidx sidx f
            = some (.upd ρ cs))) := by
  rw [reconcile] at h
  rcases hsc : sheetCols sheet rules with ⟨u, c0, c1, c2, c3⟩
  rw [hsc] at h
  have h2 : (match buildIndexes u c0 c1 c2 c3 sheet.rows with
      | none => none
      | some (uidx, sidx) => reconcileGo sheet.columns rules uidx sidx facs)
      = some (I, U) := h
  rcases hidx : buildIndexes u c0 c1 c2 c3 sheet.rows with _ | ⟨uidx, sidx⟩
  · rw [hidx] at h2
    exact Option.noConfusion h2
  · rw [hidx] at h2
    obtain ⟨hI, hU, hnn⟩ := reconcileGo_filterMap _ _ _ _ _ _ _ h2
    refine ⟨reconcileGo_partition _ _ _ _ _ _ _ h2, uidx, sidx, rfl, hI, hU, ?_⟩
    intro f hf
    have hne := hnn f hf
    rcases Option.ne_none_iff_exists'.mp hne with ⟨act, hcf⟩
    constructor
    · intro hempty
      rcases @classifyFac_of_empty _ _ uidx sidx _ hempty with h' | h'
      · exact absurd h' hne
      · exact h'
    · intro hneb
      rcases classifyFac_act_cells hcf hneb with h' | ⟨ρ, _, h'⟩
      · exact Or.inl ⟨_, by rw [hcf, h']⟩
      · exact Or.inr ⟨ρ, _, by rw [hcf, h']⟩

/-- C2 witness: a batch of three records against the one-row sheet — an
identity match (one update), a field-less record (skipped), and a fresh
record (one insert): 1 + 1 entries for the 2 records with mapped cells,
and the two lists are the classification's projections. -/
theorem c2_partition_witness :
    ([scenarioCells] : List Insert).length
        + ([((1 : ℕ), idCells)] : List Update).length
      = ([facMatchById, emptyFac, scenarioFac].filter
          (fun f => !(buildCells oneRowSheet.columns defaultRules f).isEmpty)).length ∧
    ∃ uidx sidx,
      buildIndexes (sheetCols oneRowSheet defaultRules).1
        (sheetCols oneRowSheet defaultRules).2.1
        (sheetCols oneRowSheet defaultRules).2.2.1
        (sheetCols oneRowSheet defaultRules).2.2.2.1
        (sheetCols oneRowSheet defaultRules).2.2.2.2 oneRowSheet.rows
        = some (uidx, sidx) ∧
      [scenarioCells] = [facMatchById, emptyFac, scenarioFac].filterMap (fun f =>
        match classifyFac oneRowSheet.columns defaultRules uidx sidx f with
        | some (.ins cs) => some cs
        | _ => none) ∧
      [((1 : ℕ), idCells)]
        = [facMatchById, emptyFac, scenarioFac].filterMap (fun f =>
        match classifyFac oneRowSheet.columns defaultRules uidx sidx f with
        | some (.upd ρ cs) => some (ρ, cs)
        | _ => none) ∧
      ∀ f ∈ [facMatchById, emptyFac, scenarioFac],
        (buildCells oneRowSheet.columns defaultRules f = [] →
          classifyFac oneRowSheet.columns defaultRules uidx sidx f
            = some .skip) ∧
        (buildCells oneRowSheet.columns defaultRules f ≠ [] →
          (∃ cs, classifyFac oneRowSheet.columns defaultRules uidx sidx f
            = some (.ins cs)) ∨
          (∃ ρ cs, classifyFac oneRowSheet.columns defaultRules uidx sidx f
            = some (.upd ρ cs))) :=
  c2_partition oneRowSheet defaultRules [facMatchById, emptyFac, scenarioFac]
    [scenarioCells] [(1, idCells)] (by rfl)

/-! ## Signature-index construction (C9) -/

theorem scanCell_dfields (u c0 c1 c2 c3 : Option ℕ) (st : RowScan) (c : SCell)
    (h0 : colHit c0 c = false) (h1 : colHit c1 c = false)
    (h2 : colHit c2 c = false) (h3 : colHit c3 c = false) :
    (scanCell u c0 c1 c2 c3 st c).d0 = st.d0 ∧
    (scanCell u c0 c1 c2 c3 st c).d1 = st.d1 ∧
    (scanCell u c0 c1 c2 c3 st c).d2 = st.d2 ∧
    (scanCell u c0 c1 c2 c3 st c).d3 = st.d3 := by
  unfold scanCell
  rw [h0, h1, h2, h3]
  split_ifs
  all_goals simp_all

theorem rowScan_no_sig_cells (u c0 c1 c2 c3 : Option ℕ) (r : SRow)
    (h : ∀ c ∈ r.cells, colHit c0 c = false ∧ colHit c1 c = false ∧
      colHit c2 c = false ∧ colHit c3 c = false) :
    (rowScan u c0 c1 c2 c3 r).d0 = .vnone ∧
    (rowScan u c0 c1 c2 c3 r).d1 = .vnone ∧
    (rowScan u c0 c1 c2 c3 r).d2 = .vnone ∧
    (rowScan u c0 c1 c2 c3 r).d3 = .vnone := by
  rw [rowScan]
  have aux : ∀ (cs : List SCell) (st : RowScan),
      (∀ c ∈ cs, colHit c0 c = false ∧ colHit c1 c = false ∧
        colHit c2 c = false ∧ colHit c3 c = false) →
      ((cs.foldl (scanCell u c0 c1 c2 c3) st).d0 = st.d0 ∧
       (cs.foldl (scanCell u c0 c1 c2 c3) st).d1 = st.d1 ∧
       (cs.foldl (scanCell u c0 c1 c2 c3) st).d2 = st.d2 ∧
       (cs.foldl (scanCell u c0 c1 c2 c3) st).d3 = st.d3) := by
    intro cs
    induction cs with
    | nil => exact fun st _ => ⟨rfl, rfl, rfl, rfl⟩
    | cons c rest ih =>
      intro st hcs
      obtain ⟨hc0, hc1, hc2, hc3⟩ := hcs c (List.mem_cons_self _ _)
      have hstep := scanCell_dfields u c0 c1 c2 c3 st c hc0 hc1 hc2 hc3
      have hrest := ih (scanCell u c0 c1 c2 c3 st c)
        (fun x hx => hcs x (List.mem_cons_of_mem _ hx))
      rw [List.foldl_cons]
      exact ⟨hrest.1.trans hstep.1, hrest.2.1.trans hstep.2.1,
        hrest.2.2.1.trans hstep.2.2.1, hrest.2.2.2.trans hstep.2.2.2⟩
  exact aux r.cells RowScan.init h

/-- C9: signature-index construction invariant.  When indexing
completes, (a) the signature index resolves every signature to the id
of the LAST row (in sheet order) bearing it — later rows silently
shadow earlier ones; (b) every row contributes an entry reachable under
its own signature; (c) a row with no signature-bearing cells indexes
under the default tuple `("", "", 0.0, "")`. -/
theorem c9_signature_shadowing (u c0 c1 c2 c3 : Option ℕ) (rows : List SRow)
    (uidx : List (String × ℕ)) (sidx : List (Sig × ℕ))
    (h : buildIndexes u c0 c1 c2 c3 rows = some (uidx, sidx)) :
    (∀ s : Sig, dget sidx s =
      ((rows.reverse.find? (fun r => rowSig u c0 c1 c2 c3 r == some s)).map
        SRow.id)) ∧
    (∀ r ∈ rows, ∃ sg, rowSig u c0 c1 c2 c3 r = some sg ∧
      (dget sidx sg).isSome) ∧
    (∀ r ∈ rows, (∀ c ∈ r.cells, colHit c0 c = false ∧ colHit c1 c = false ∧
        colHit c2 c = false ∧ colHit c3 c = false) →
      rowSig u c0 c1 c2 c3 r = some (.vstr "", "", 0, "")) := by
  refine ⟨?_, ?_, ?_⟩
  · induction rows generalizing uidx sidx with
    | nil =>
      rw [buildIndexes] at h
      obtain ⟨rfl, rfl⟩ := Prod.mk.injEq .. ▸ (Option.some.injEq .. ▸ h)
      intro s
      simp [dget]
    | cons r rs ih =>
      rw [buildIndexes] at h
      rcases hr : rowSig u c0 c1 c2 c3 r with _ | sg
      · rw [hr] at h
        exact Option.noConfusion h
      · rw [hr] at h
        rcases hrest : buildIndexes u c0 c1 c2 c3 rs with _ | ⟨ui', si'⟩
        · rw [hrest] at h
          exact Option.noConfusion h
        · rw [hrest] at h
          obtain ⟨rfl, rfl⟩ := Prod.mk.injEq .. ▸ (Option.some.injEq .. ▸ h)
          intro s
          have ih1 := ih ui' si' hrest s
          simp only [List.reverse_cons, List.find?_append]
          rw [dget]
          cases hfind : List.find? (fun r => rowSig u c0 c1 c2 c3 r == some s)
              rs.reverse with
          | some r' =>
            rw [hfind] at ih1
            rw [ih1]
            simp
          | none =>
            rw [hfind] at ih1
            simp only [Option.map_none'] at ih1
            rw [ih1]
            by_cases hss : s = sg
            · subst hss
              simp [List.find?, hr]
            · have hbe : (sg == s) = false :=
                beq_eq_false_iff_ne.mpr (fun hh => hss hh.symm)
              simp [List.find?, hr, hss, hbe]
  · induction rows generalizing uidx sidx with
    | nil => intro r hr; simp at hr
    | cons r rs ih =>
      rw [buildIndexes] at h
      rcases hr : rowSig u c0 c1 c2 c3 r with _ | sg
      · rw [hr] at h
        exact Option.noConfusion h
      · rw [hr] at h
        rcases hrest : buildIndexes u c0 c1 c2 c3 rs with _ | ⟨ui', si'⟩
        · rw [hrest] at h
          exact Option.noConfusion h
        · rw [hrest] at h
          obtain ⟨rfl, rfl⟩ := Prod.mk.injEq .. ▸ (Option.some.injEq .. ▸ h)
          intro r' hr'
          rcases List.mem_cons.mp hr' with rfl | hmem
          · refine ⟨sg, hr, ?_⟩
            rw [dget]
            cases hd : dget si' sg with
            | some w => simp [hd]
            | none => simp [hd]
          · obtain ⟨sg', hsg', hsome⟩ := ih ui' si' hrest r' hmem
            refine ⟨sg', hsg', ?_⟩
            rw [dget]
            cases hd : dget si' sg' with
            | some w => simp [hd]
            | none => simp [hd] at hsome
  · intro r _ hnone
    obtain ⟨h0, h1, h2, h3⟩ := rowScan_no_sig_cells u c0 c1 c2 c3 r hnone
    rw [rowSig, h0, h1, h2, h3]
    rfl

/-- C9 witness: in the concrete `shadowRows`, the shared signature
resolves to the later row 2, and the cell-less row 3 is reachable under
the default tuple. -/
theorem c9_signature_shadowing_witness :
    dget shadowSidx (.vstr "2025-01-01", "AAA", 1, "G") = some 2 ∧
    dget shadowSidx (.vstr "", "", 0, "") = some 3 :=
  have hc := c9_signature_shadowing (some 1) (some 2) (some 3) (some 4) (some 5)
    shadowRows [] shadowSidx (by rfl)
  ⟨(hc.1 (.vstr "2025-01-01", "AAA", 1, "G")).trans (by rfl),
   (hc.1 (.vstr "", "", 0, "")).trans (by rfl)⟩

/-! ## Fetch aggregation (C4) -/

theorem dget_map_attempts (f : FetchOracle) (atts : List Attempt) (a : Attempt)
    (ha : a ∈ atts) (hdist : atts.Pairwise (fun x y => x.label ≠ y.label)) :
    dget (atts.map (attemptResult f)) a.label = some (attemptResult f a).2 := by
  induction atts with
  | nil => simp at ha
  | cons b rest ih =>
    have hb : attemptResult f b = (b.label, (attemptResult f b).2) := rfl
    rw [List.map_cons, hb, dget]
    rcases List.mem_cons.mp ha with rfl | hmem
    · have hnone : dget (rest.map (attemptResult f)) a.label = none := by
        refine dget_eq_none (fun p hp => ?_)
        obtain ⟨x, hx, rfl⟩ := List.mem_map.mp hp
        exact Ne.symm ((List.pairwise_cons.mp hdist).1 x hx)
      rw [hnone]
      simp
    · have := ih hmem (List.pairwise_cons.mp hdist).2
      rw [this]

/-- C4: per-account failure isolation in the fetch aggregator.  When
the registration loop completes and the registered labels are distinct,
the returned mapping carries, for each attempted account, the captured
error of its own fetch task or the count of its fetched records — and
that entry depends only on that account's own task outcome: replacing
the oracle by any other one that agrees on this account's request
leaves the entry unchanged, whatever happens to sibling accounts.  (No
exception escapes the gather: every task's outcome, error or success,
is captured as a mapping entry.) -/
theorem c4_fetch_isolation (cfg : List ConfigRow) (fetch fetch' : FetchOracle)
    (idFila : Option String) (atts : List Attempt) (a : Attempt)
    (hatts : attemptsOf idFila cfg = some atts)
    (ha : a ∈ atts)
    (hdist : atts.Pairwise (fun x y => x.label ≠ y.label))
    (hagree : fetch (buildUrl a.url a.filtro) a.token a.filtro
            = fetch' (buildUrl a.url a.filtro) a.token a.filtro) :
    ∃ res res', traerFacturas cfg fetch idFila = some res ∧
      traerFacturas cfg fetch' idFila = some res' ∧
      dget res a.label = some (attemptResult fetch a).2 ∧
      dget res' a.label = some (attemptResult fetch a).2 := by
  refine ⟨atts.map (attemptResult fetch), atts.map (attemptResult fetch'),
    ?_, ?_, ?_, ?_⟩
  · rw [traerFacturas, hatts]
    rfl
  · rw [traerFacturas, hatts]
    rfl
  · exact dget_map_attempts fetch atts a ha hdist
  · have h2 := dget_map_attempts fetch' atts a ha hdist
    have he : (attemptResult fetch' a).2 = (attemptResult fetch a).2 := by
      simp only [attemptResult]
      rw [← hagree]
    rw [he] at h2
    exact h2

/-- C4 witness: three accounts where the second one's call fails —
its mapping entry is the captured error, unchanged under an oracle that
alters every sibling's outcome. -/
theorem c4_fetch_isolation_witness :
    ∃ res res', traerFacturas threeAccounts oracleTimeout2 none = some res ∧
      traerFacturas threeAccounts oracleOthersChanged none = some res' ∧
      dget res (.vstr "Dos")
        = some (attemptResult oracleTimeout2
            ⟨.vstr "Dos", "https://api.bind.com.mx/api/Invoices", .vstr "T2", ""⟩).2 ∧
      dget res' (.vstr "Dos")
        = some (attemptResult oracleTimeout2
            ⟨.vstr "Dos", "https://api.bind.com.mx/api/Invoices", .vstr "T2", ""⟩).2 :=
  c4_fetch_isolation threeAccounts oracleTimeout2 oracleOthersChanged none
    threeAttempts
    ⟨.vstr "Dos", "https://api.bind.com.mx/api/Invoices", .vstr "T2", ""⟩
    (by rfl) (by decide) (by decide) (by rfl)

/-! ## Idempotence support (C3) -/

theorem uuidVal_truthy {fac : Fac} (h : uuidVal fac ≠ "") :
    (fget fac "UUID").truthy = true ∧
    uuidVal fac = pyStrip (fget fac "UUID").pyStr := by
  by_cases ht : (fget fac "UUID").truthy
  · exact ⟨ht, by rw [uuidVal, PyVal.orElse, if_pos ht]⟩
  · exfalso
    apply h
    rw [uuidVal, PyVal.orElse, if_neg ht]
    rfl

theorem buildCells_uuid_mem {cols : List SColumn} {rules : List (String × String)}
    {fac : Fac} {dstU : String} {u : ℕ}
    (hdst : dget rules "UUID" = some dstU)
    (hcol : colMapGet cols (slug dstU) = some u) (hu0 : u ≠ 0)
    (hv : (fget fac "UUID").truthy = true) :
    (u, fget fac "UUID") ∈ buildCells cols rules fac := by
  have hmem : ("UUID", dstU) ∈ rules := mem_of_dget hdst
  rw [buildCells]
  refine List.mem_filterMap.mpr ⟨("UUID", dstU), hmem, ?_⟩
  rw [ruleCell]
  have hdate : startsWithStr (pyLower "UUID") "date" = false := by decide
  have hvn : fget fac "UUID" ≠ .vnone := by
    intro hveq
    rw [hveq] at hv
    exact absurd hv (by simp [PyVal.truthy])
  simp [hcol, hu0, hvn, hdate]

theorem buildCells_uuid_val {cols : List SColumn} {rules : List (String × String)}
    {fac : Fac} {u : ℕ} {w : PyVal}
    (honly : ∀ rule ∈ rules, colMapGet cols (slug rule.2) = some u →
      rule.1 = "UUID")
    (hw : (u, w) ∈ buildCells cols rules fac) :
    w = fget fac "UUID" := by
  obtain ⟨rule, hrule, hcell⟩ := List.mem_filterMap.mp hw
  rw [ruleCell] at hcell
  rcases hcm : colMapGet cols (slug rule.2) with _ | cid
  · simp only [hcm] at hcell
    exact Option.noConfusion hcell
  · simp only [hcm] at hcell
    by_cases h0 : cid = 0
    · simp [h0] at hcell
    · rw [if_neg h0] at hcell
      by_cases hvn : fget fac rule.1 = .vnone
      · simp [hvn] at hcell
      · rw [if_neg hvn] at hcell
        obtain ⟨hcid, hval⟩ := Prod.mk.injEq .. ▸ (Option.some.injEq .. ▸ hcell)
        subst hcid
        have hk : rule.1 = "UUID" := honly rule hrule hcm
        have hdate : startsWithStr (pyLower "UUID") "date" = false := by decide
        rw [hk] at hval
        rw [← hval, hdate]
        simp

theorem scanCell_rowUuid (u c0 c1 c2 c3 : Option ℕ) (st : RowScan) (c : SCell) :
    (scanCell u c0 c1 c2 c3 st c).rowUuid =
      if colHit u c && c.value.truthy then some (pyStrip c.value.pyStr)
      else st.rowUuid := by
  unfold scanCell
  split_ifs
  all_goals rfl

theorem setCell_same (r : SRow) (u : ℕ) (v : PyVal) :
    (∃ c ∈ (setCell r u v).cells, c.columnId = u) ∧
    (∀ c ∈ (setCell r u v).cells, c.columnId = u → c = ⟨u, v, none⟩) := by
  rw [setCell]
  split_ifs with hany
  · obtain ⟨c, hc, hcu⟩ := List.any_eq_true.mp hany
    constructor
    · exact ⟨⟨u, v, none⟩, List.mem_map.mpr ⟨c, hc, if_pos hcu⟩, rfl⟩
    · intro c' hc' hcu'
      obtain ⟨x, hx, rfl⟩ := List.mem_map.mp hc'
      by_cases hxu : (x.columnId == u) = true
      · simp [hxu]
      · rw [if_neg hxu] at hcu' ⊢
        exact absurd (beq_iff_eq.mpr hcu') hxu
  · constructor
    · exact ⟨⟨u, v, none⟩, by simp, rfl⟩
    · intro c hc hcu
      rcases List.mem_append.mp hc with hmem | hmem
      · exfalso
        exact hany (List.any_eq_true.mpr ⟨c, hmem, beq_iff_eq.mpr hcu⟩)
      · simpa using hmem

theorem setCell_preserve (r : SRow) (u cid : ℕ) (w v : PyVal) (hne : cid ≠ u)
    (hex : ∃ c ∈ r.cells, c.columnId = u)
    (hall : ∀ c ∈ r.cells, c.columnId = u → c = ⟨u, v, none⟩) :
    (∃ c ∈ (setCell r cid w).cells, c.columnId = u) ∧
    (∀ c ∈ (setCell r cid w).cells, c.columnId = u → c = ⟨u, v, none⟩) := by
  rw [setCell]
  split_ifs with hany
  · obtain ⟨c, hc, hcu⟩ := hex
    constructor
    · refine ⟨c, List.mem_map.mpr ⟨c, hc, if_neg ?_⟩, hcu⟩
      rw [hcu]
      simp [beq_iff_eq]
      exact Ne.symm hne
    · intro c' hc' hcu'
      obtain ⟨x, hx, rfl⟩ := List.mem_map.mp hc'
      by_cases hxc : (x.columnId == cid) = true
      · rw [if_pos hxc] at hcu' ⊢
        exact absurd hcu' hne
      · rw [if_neg hxc] at hcu' ⊢
        exact hall x hx hcu'
  · constructor
    · obtain ⟨c, hc, hcu⟩ := hex
      exact ⟨c, List.mem_append_left _ hc, hcu⟩
    · intro c hc hcu
      rcases List.mem_append.mp hc with hmem | hmem
      · exact hall c hmem hcu
      · have : c = ⟨cid, w, none⟩ := by simpa using hmem
        rw [this] at hcu
        exact absurd hcu hne

theorem applyCells_inv (u : ℕ) (v : PyVal) :
    ∀ cs : List (ℕ × PyVal), (∀ p ∈ cs, p.1 = u → p.2 = v) →
    ∀ r : SRow, (∃ c ∈ r.cells, c.columnId = u) →
    (∀ c ∈ r.cells, c.columnId = u → c = ⟨u, v, none⟩) →
    (∃ c ∈ (applyCells cs r).cells, c.columnId = u) ∧
    (∀ c ∈ (applyCells cs r).cells, c.columnId = u → c = ⟨u, v, none⟩) := by
  intro cs
  induction cs with
  | nil => exact fun _ r hex hallr => ⟨hex, hallr⟩
  | cons p rest ih =>
    intro hall r hex hallr
    rw [applyCells, List.foldl_cons]
    by_cases hpu : p.1 = u
    · have hpv : p.2 = v := hall p (List.mem_cons_self _ _) hpu
      rw [hpu, hpv]
      have hstep := setCell_same r u v
      exact ih (fun q hq hqu => hall q (List.mem_cons_of_mem _ hq) hqu)
        (setCell r u v) hstep.1 hstep.2
    · have hstep := setCell_preserve r u p.1 p.2 v hpu hex hallr
      exact ih (fun q hq hqu => hall q (List.mem_cons_of_mem _ hq) hqu)
        (setCell r p.1 p.2) hstep.1 hstep.2

theorem applyCells_estab (cs : List (ℕ × PyVal)) (r : SRow) (u : ℕ) (v : PyVal)
    (hmem : (u, v) ∈ cs) (hall : ∀ p ∈ cs, p.1 = u → p.2 = v) :
    (∃ c ∈ (applyCells cs r).cells, c.columnId = u) ∧
    (∀ c ∈ (applyCells cs r).cells, c.columnId = u → c = ⟨u, v, none⟩) := by
  obtain ⟨pre, post, hsplit⟩ := List.append_of_mem hmem
  subst hsplit
  rw [applyCells, List.foldl_append, List.foldl_cons]
  have hsame := setCell_same (pre.foldl (fun r p => setCell r p.1 p.2) r) u v
  exact applyCells_inv u v post
    (fun q hq hqu => hall q (by simp [hq]) hqu) _ hsame.1 hsame.2

theorem rowScan_rowUuid_of_uniform (u : ℕ) (hu : u ≠ 0) (c0 c1 c2 c3 : Option ℕ)
    (r : SRow) (v : PyVal) (hv : v.truthy = true)
    (hex : ∃ c ∈ r.cells, c.columnId = u)
    (hall : ∀ c ∈ r.cells, c.columnId = u → c = ⟨u, v, none⟩) :
    (rowScan (some u) c0 c1 c2 c3 r).rowUuid = some (pyStrip v.pyStr) := by
  rw [rowScan]
  have aux : ∀ cs : List SCell, (∀ c ∈ cs, c.columnId = u → c = ⟨u, v, none⟩) →
      ∀ st : RowScan,
      (cs.foldl (scanCell (some u) c0 c1 c2 c3) st).rowUuid =
        (if ∃ c ∈ cs, c.columnId = u then some (pyStrip v.pyStr)
         else st.rowUuid) := by
    intro cs
    induction cs with
    | nil =>
      intro _ st
      simp
    | cons c rest ih =>
      intro hcs st
      rw [List.foldl_cons]
      by_cases hcu : c.columnId = u
      · have hc : c = ⟨u, v, none⟩ := hcs c (List.mem_cons_self _ _) hcu
        have hstep : (scanCell (some u) c0 c1 c2 c3 st c).rowUuid
            = some (pyStrip v.pyStr) := by
          rw [scanCell_rowUuid]
          rw [if_pos]
          · rw [hc]
          · rw [hc]
            simp [colHit, hu, hv]
        rw [ih (fun x hx => hcs x (List.mem_cons_of_mem _ hx))]
        by_cases hrest : ∃ x ∈ rest, x.columnId = u
        · rw [if_pos hrest, if_pos ⟨c, List.mem_cons_self _ _, hcu⟩]
        · rw [if_neg hrest, if_pos ⟨c, List.mem_cons_self _ _, hcu⟩, hstep]
      · have hstep : (scanCell (some u) c0 c1 c2 c3 st c).rowUuid = st.rowUuid := by
          rw [scanCell_rowUuid, if_neg]
          simp [colHit]
          intro h0 hcol
          exact absurd hcol hcu
        rw [ih (fun x hx => hcs x (List.mem_cons_of_mem _ hx)), hstep]
        by_cases hrest : ∃ x ∈ rest, x.columnId = u
        · rw [if_pos hrest, if_pos (by
            obtain ⟨x, hx, hxu⟩ := hrest
            exact ⟨x, List.mem_cons_of_mem _ hx, hxu⟩)]
        · rw [if_neg hrest, if_neg (by
            intro hcons
            obtain ⟨x, hx, hxu⟩ := hcons
            rcases List.mem_cons.mp hx with rfl | hmem
            · exact hcu hxu
            · exact hrest ⟨x, hmem, hxu⟩)]
  rw [aux r.cells hall RowScan.init, if_pos hex]

theorem applyCells_id (cs : List (ℕ × PyVal)) (r : SRow) :
    (applyCells cs r).id = r.id := by
  induction cs generalizing r with
  | nil => rfl
  | cons p rest ih =>
    rw [applyCells, List.foldl_cons]
    have hset : (setCell r p.1 p.2).id = r.id := by
      rw [setCell]
      split_ifs
      all_goals rfl
    exact (ih (setCell r p.1 p.2)).trans hset

theorem applyUpdates_mem_untouched (upd : List Update) (rows : List SRow)
    (r : SRow) (hr : r ∈ rows) (hno : ∀ p ∈ upd, p.1 ≠ r.id) :
    r ∈ applyUpdates upd rows := by
  induction upd generalizing rows with
  | nil => exact hr
  | cons p rest ih =>
    obtain ⟨rid, cs⟩ := p
    rw [applyUpdates]
    refine ih _ ?_ (fun q hq => hno q (List.mem_cons_of_mem _ hq))
    have hne : ¬r.id = rid :=
      fun hh => hno (rid, cs) (List.mem_cons_self _ _) hh.symm
    exact List.mem_map.mpr ⟨r, hr, if_neg hne⟩

theorem applyUpdates_mem_target (upd : List Update) :
    ∀ rows : List SRow, (upd.map Prod.fst).Nodup →
    ∀ rid cs, (rid, cs) ∈ upd →
    ∀ r ∈ rows, r.id = rid →
    applyCells cs r ∈ applyUpdates upd rows := by
  induction upd with
  | nil =>
    intro _ _ rid cs hmem
    simp at hmem
  | cons p rest ih =>
    intro rows hdist rid cs hmem r hr hid
    obtain ⟨rid', cs'⟩ := p
    rw [applyUpdates]
    have hdist' : (rid' :: rest.map Prod.fst).Nodup := by simpa using hdist
    have hnotin : rid' ∉ rest.map Prod.fst := (List.nodup_cons.mp hdist').1
    rcases List.mem_cons.mp hmem with heq | hmem'
    · obtain ⟨h1, h2⟩ := Prod.mk.injEq .. ▸ heq
      subst h1
      subst h2
      have hmemmap : applyCells cs r ∈
          rows.map (fun x => if x.id = rid then applyCells cs x else x) :=
        List.mem_map.mpr ⟨r, hr, if_pos hid⟩
      refine applyUpdates_mem_untouched rest _ _ hmemmap ?_
      intro q hq
      rw [applyCells_id, hid]
      intro hh
      exact hnotin (hh ▸ List.mem_map_of_mem Prod.fst hq)
    · have hne : ¬r.id = rid' := by
        intro hh
        apply hnotin
        have : rid ∈ rest.map Prod.fst := List.mem_map_of_mem Prod.fst hmem'
        rwa [← hid, hh] at this
      have hrm : r ∈ rows.map (fun x => if x.id = rid' then applyCells cs' x else x) :=
        List.mem_map.mpr ⟨r, hr, if_neg hne⟩
      exact ih _ (List.nodup_cons.mp hdist').2 rid cs hmem' r hrm hid

theorem applyUpdates_ids (upd : List Update) :
    ∀ rows : List SRow, ∀ r' ∈ applyUpdates upd rows, ∃ r ∈ rows, r'.id = r.id := by
  induction upd with
  | nil => exact fun rows r' hr' => ⟨r', hr', rfl⟩
  | cons p rest ih =>
    intro rows r' hr'
    obtain ⟨rid, cs⟩ := p
    rw [applyUpdates] at hr'
    obtain ⟨r1, hr1, hid1⟩ := ih _ r' hr'
    obtain ⟨r0, hr0, heq⟩ := List.mem_map.mp hr1
    refine ⟨r0, hr0, ?_⟩
    rw [hid1, ← heq]
    split_ifs
    · rw [applyCells_id]
    · rfl

theorem zip_mem_of_len {α β : Type} :
    ∀ (l1 : List α) (l2 : List β), l2.length = l1.length →
    ∀ a ∈ l1, ∃ b ∈ l2, (a, b) ∈ l1.zip l2 := by
  intro l1
  induction l1 with
  | nil =>
    intro l2 _ a ha
    simp at ha
  | cons x rest ih =>
    intro l2 hlen a ha
    cases l2 with
    | nil => simp at hlen
    | cons y l2' =>
      rcases List.mem_cons.mp ha with rfl | hmem
      · exact ⟨y, List.mem_cons_self _ _, by simp⟩
      · obtain ⟨b, hb, hab⟩ := ih l2' (by simpa using hlen) a hmem
        exact ⟨b, List.mem_cons_of_mem _ hb, List.mem_cons_of_mem _ hab⟩

theorem buildIndexes_uidx_sub {u c0 c1 c2 c3 : Option ℕ} :
    ∀ {rows : List SRow} {uidx : List (String × ℕ)} {sidx : List (Sig × ℕ)},
    buildIndexes u c0 c1 c2 c3 rows = some (uidx, sidx) →
    ∀ p ∈ uidx, ∃ r ∈ rows, SRow.id r = p.2 := by
  intro rows
  induction rows with
  | nil =>
    intro uidx sidx h p hp
    rw [buildIndexes] at h
    obtain ⟨rfl, rfl⟩ := Prod.mk.injEq .. ▸ (Option.some.injEq .. ▸ h)
    simp at hp
  | cons r rs ih =>
    intro uidx sidx h p hp
    rw [buildIndexes] at h
    rcases hr : rowSig u c0 c1 c2 c3 r with _ | sg
    · rw [hr] at h
      exact Option.noConfusion h
    · rw [hr] at h
      rcases hrest : buildIndexes u c0 c1 c2 c3 rs with _ | ⟨ui', si'⟩
      · rw [hrest] at h
        exact Option.noConfusion h
      · rw [hrest] at h
        obtain ⟨rfl, rfl⟩ := Prod.mk.injEq .. ▸ (Option.some.injEq .. ▸ h)
        rcases List.mem_append.mp hp with hl | hrr
        · refine ⟨r, List.mem_cons_self _ _, ?_⟩
          rw [rowUuidEntry] at hl
          rcases hscan : (rowScan u c0 c1 c2 c3 r).rowUuid with _ | uv
          · simp only [hscan] at hl
            simp at hl
          · simp only [hscan] at hl
            by_cases hne : uv ≠ ""
            · rw [if_pos hne] at hl
              have : p = (uv, r.id) := by simpa using hl
              rw [this]
            · rw [if_neg hne] at hl
              simp at hl
        · obtain ⟨r', hr', hid⟩ := ih hrest p hrr
          exact ⟨r', List.mem_cons_of_mem _ hr', hid⟩

theorem buildIndexes_sidx_sub {u c0 c1 c2 c3 : Option ℕ} :
    ∀ {rows : List SRow} {uidx : List (String × ℕ)} {sidx : List (Sig × ℕ)},
    buildIndexes u c0 c1 c2 c3 rows = some (uidx, sidx) →
    ∀ p ∈ sidx, ∃ r ∈ rows, SRow.id r = p.2 := by
  intro rows
  induction rows with
  | nil =>
    intro uidx sidx h p hp
    rw [buildIndexes] at h
    obtain ⟨rfl, rfl⟩ := Prod.mk.injEq .. ▸ (Option.some.injEq .. ▸ h)
    simp at hp
  | cons r rs ih =>
    intro uidx sidx h p hp
    rw [buildIndexes] at h
    rcases hr : rowSig u c0 c1 c2 c3 r with _ | sg
    · rw [hr] at h
      exact Option.noConfusion h
    · rw [hr] at h
      rcases hrest : buildIndexes u c0 c1 c2 c3 rs with _ | ⟨ui', si'⟩
      · rw [hrest] at h
        exact Option.noConfusion h
      · rw [hrest] at h
        obtain ⟨rfl, rfl⟩ := Prod.mk.injEq .. ▸ (Option.some.injEq .. ▸ h)
        rcases List.mem_cons.mp hp with heq | hmem
        · refine ⟨r, List.mem_cons_self _ _, ?_⟩
          rw [heq]
        · obtain ⟨r', hr', hid⟩ := ih hrest p hmem
          exact ⟨r', List.mem_cons_of_mem _ hr', hid⟩

theorem buildIndexes_uuid_mem {u c0 c1 c2 c3 : Option ℕ} :
    ∀ {rows : List SRow} {uidx : List (String × ℕ)} {sidx : List (Sig × ℕ)},
    buildIndexes u c0 c1 c2 c3 rows = some (uidx, sidx) →
    ∀ r ∈ rows, ∀ uv : String,
    (rowScan u c0 c1 c2 c3 r).rowUuid = some uv → uv ≠ "" →
    (uv, r.id) ∈ uidx := by
  intro rows
  induction rows with
  | nil =>
    intro uidx sidx _ r hr
    simp at hr
  | cons r0 rs ih =>
    intro uidx sidx h r hr uv hscan hne
    rw [buildIndexes] at h
    rcases hr0 : rowSig u c0 c1 c2 c3 r0 with _ | sg
    · rw [hr0] at h
      exact Option.noConfusion h
    · rw [hr0] at h
      rcases hrest : buildIndexes u c0 c1 c2 c3 rs with _ | ⟨ui', si'⟩
      · rw [hrest] at h
        exact Option.noConfusion h
      · rw [hrest] at h
        obtain ⟨rfl, rfl⟩ := Prod.mk.injEq .. ▸ (Option.some.injEq .. ▸ h)
        rcases List.mem_cons.mp hr with rfl | hmem
        · refine List.mem_append_left _ ?_
          rw [rowUuidEntry]
          simp only [hscan]
          rw [if_pos hne]
          exact List.mem_singleton.mpr rfl
        · exact List.mem_append_right _ (ih hrest r hmem uv hscan hne)

theorem classifyFac_via_sidx {cols : List SColumn} {rules : List (String × String)}
    {uidx : List (String × ℕ)} {sidx : List (Sig × ℕ)} {fac : Fac} {sg : Sig}
    (hm : makeSignature (fget fac "Date") (fget fac "RFC") (fget fac "Total")
      (fget fac "CFDIUse") = some sg)
    (hcell : buildCells cols rules fac ≠ [])
    (hfall : (if uuidVal fac ≠ "" then dget uidx (uuidVal fac) else none) = none
           ∨ (if uuidVal fac ≠ "" then dget uidx (uuidVal fac) else none) = some 0) :
    classifyFac cols rules uidx sidx fac =
      (match dget sidx sg with
       | some m => if m ≠ 0 then some (.upd m (buildCells cols rules fac))
                   else some (.ins (buildCells cols rules fac))
       | none => some (.ins (buildCells cols rules fac))) := by
  rcases hfall with hf | hf
  · simp [classifyFac, hm, hcell, hf, optNatTruthy]
  · simp [classifyFac, hm, hcell, hf, optNatTruthy]

theorem classifyFac_upd_source {cols : List SColumn} {rules : List (String × String)}
    {uidx : List (String × ℕ)} {sidx : List (Sig × ℕ)} {fac : Fac} {ρ : ℕ}
    {cs : List (ℕ × PyVal)}
    (h : classifyFac cols rules uidx sidx fac = some (.upd ρ cs)) :
    (∃ k, dget uidx k = some ρ) ∨ (∃ sg, dget sidx sg = some ρ) := by
  rcases hm : makeSignature (fget fac "Date") (fget fac "RFC") (fget fac "Total")
      (fget fac "CFDIUse") with _ | sg
  · rw [classifyFac, hm] at h
    exact Option.noConfusion h
  · by_cases hcell : buildCells cols rules fac = []
    · rcases @classifyFac_of_empty _ _ uidx sidx _ hcell with h' | h'
      · rw [h] at h'
        exact Option.noConfusion h'
      · rw [h] at h'
        simp at h'
    · have sidxCase : (if uuidVal fac ≠ "" then dget uidx (uuidVal fac) else none)
            = none
          ∨ (if uuidVal fac ≠ "" then dget uidx (uuidVal fac) else none)
            = some 0 →
          (∃ k, dget uidx k = some ρ) ∨ (∃ sg, dget sidx sg = some ρ) := by
        intro hfall
        rw [classifyFac_via_sidx hm hcell hfall] at h
        rcases hgs : dget sidx sg with _ | m
        · simp only [hgs] at h
          simp at h
        · simp only [hgs] at h
          by_cases hm0 : m ≠ 0
          · simp only [if_pos hm0, Option.some.injEq, FacAction.upd.injEq] at h
            right
            refine ⟨sg, ?_⟩
            rw [hgs, h.1]
          · simp only [if_neg hm0] at h
            simp at h
      rcases hru : (if uuidVal fac ≠ "" then dget uidx (uuidVal fac) else none)
          with _ | n
      · exact sidxCase (Or.inl hru)
      · by_cases hn0 : n ≠ 0
        · have hc : classifyFac cols rules uidx sidx fac
              = some (.upd n (buildCells cols rules fac)) := by
            simp [classifyFac, hm, hcell, hru, optNatTruthy, hn0]
          rw [h] at hc
          simp only [Option.some.injEq, FacAction.upd.injEq] at hc
          left
          by_cases hneuv : uuidVal fac ≠ ""
          · rw [if_pos hneuv] at hru
            refine ⟨uuidVal fac, ?_⟩
            rw [hru, hc.1]
          · rw [if_neg hneuv] at hru
            exact Option.noConfusion hru
        · refine sidxCase (Or.inr ?_)
          rw [hru]
          simp only [ne_eq, not_not] at hn0
          rw [hn0]

theorem reconcileGo_mem {cols : List SColumn} {rules : List (String × String)}
    {uidx : List (String × ℕ)} {sidx : List (Sig × ℕ)} :
    ∀ {facs : List Fac} {I : List Insert} {U : List Update},
    reconcileGo cols rules uidx sidx facs = some (I, U) →
    ∀ fac ∈ facs, ∃ act, classifyFac cols rules uidx sidx fac = some act ∧
      (∀ cs, act = .ins cs → cs ∈ I) ∧
      (∀ ρ cs, act = .upd ρ cs → (ρ, cs) ∈ U) := by
  intro facs
  induction facs with
  | nil =>
    intro I U _ fac hf
    simp at hf
  | cons g rest ih =>
    intro I U h fac hf
    rw [reconcileGo] at h
    rcases hc : classifyFac cols rules uidx sidx g with _ | act0
    · rw [hc] at h
      exact Option.noConfusion h
    · rw [hc] at h
      cases act0 with
      | skip =>
        rcases List.mem_cons.mp hf with rfl | hmem
        · exact ⟨.skip, hc, fun cs hcs => by simp at hcs,
            fun ρ cs hcs => by simp at hcs⟩
        · exact ih h fac hmem
      | ins cs0 =>
        rcases hrest : reconcileGo cols rules uidx sidx rest with _ | ⟨I', U'⟩
        · rw [hrest] at h
          exact Option.noConfusion h
        · rw [hrest] at h
          obtain ⟨rfl, rfl⟩ := Prod.mk.injEq .. ▸ (Option.some.injEq .. ▸ h)
          rcases List.mem_cons.mp hf with rfl | hmem
          · refine ⟨.ins cs0, hc, fun cs hcs => ?_, fun ρ cs hcs => by simp at hcs⟩
            have : cs0 = cs := by simpa using hcs
            rw [← this]
            exact List.mem_cons_self _ _
          · obtain ⟨act, hact, hins, hupd⟩ := ih hrest fac hmem
            exact ⟨act, hact,
              fun cs hcs => List.mem_cons_of_mem _ (hins cs hcs), hupd⟩
      | upd ρ0 cs0 =>
        rcases hrest : reconcileGo cols rules uidx sidx rest with _ | ⟨I', U'⟩
        · rw [hrest] at h
          exact Option.noConfusion h
        · rw [hrest] at h
          obtain ⟨rfl, rfl⟩ := Prod.mk.injEq .. ▸ (Option.some.injEq .. ▸ h)
          rcases List.mem_cons.mp hf with rfl | hmem
          · refine ⟨.upd ρ0 cs0, hc, fun cs hcs => by simp at hcs,
              fun ρ cs hcs => ?_⟩
            have : ρ0 = ρ ∧ cs0 = cs := by simpa using hcs
            rw [← this.1, ← this.2]
            exact List.mem_cons_self _ _
          · obtain ⟨act, hact, hins, hupd⟩ := ih hrest fac hmem
            exact ⟨act, hact, hins,
              fun ρ cs hcs => List.mem_cons_of_mem _ (hupd ρ cs hcs)⟩

theorem classifyFac_upd_of_uuid {cols : List SColumn}
    {rules : List (String × String)} {uidx : List (String × ℕ)}
    {sidx : List (Sig × ℕ)} {fac : Fac} {ρ : ℕ} {act : FacAction}
    (hne : uuidVal fac ≠ "") (hd : dget uidx (uuidVal fac) = some ρ) (hρ : ρ ≠ 0)
    (hcell : buildCells cols rules fac ≠ [])
    (h : classifyFac cols rules uidx sidx fac = some act) :
    act = .upd ρ (buildCells cols rules fac) := by
  rcases hm : makeSignature (fget fac "Date") (fget fac "RFC") (fget fac "Total")
      (fget fac "CFDIUse") with _ | sg
  · rw [classifyFac, hm] at h
    exact Option.noConfusion h
  · have hc : classifyFac cols rules uidx sidx fac
        = some (.upd ρ (buildCells cols rules fac)) := by
      simp [classifyFac, hm, hcell, hne, hd, optNatTruthy, hρ]
    rw [hc] at h
    exact (Option.some.injEq .. ▸ h).symm

theorem reconcileGo_all_upd {cols : List SColumn} {rules : List (String × String)}
    {uidx : List (String × ℕ)} {sidx : List (Sig × ℕ)} :
    ∀ {facs : List Fac} {I : List Insert} {U : List Update},
    reconcileGo cols rules uidx sidx facs = some (I, U) →
    (∀ fac ∈ facs, ∀ act, classifyFac cols rules uidx sidx fac = some act →
      ∃ ρ cs, act = .upd ρ cs) →
    I = [] ∧ U.length = facs.length := by
  intro facs
  induction facs with
  | nil =>
    intro I U h _
    rw [reconcileGo] at h
    obtain ⟨rfl, rfl⟩ := Prod.mk.injEq .. ▸ (Option.some.injEq .. ▸ h)
    exact ⟨rfl, rfl⟩
  | cons g rest ih =>
    intro I U h hall
    rw [reconcileGo] at h
    rcases hc : classifyFac cols rules uidx sidx g with _ | act0
    · rw [hc] at h
      exact Option.noConfusion h
    · rw [hc] at h
      obtain ⟨ρ, cs, hupd⟩ := hall g (List.mem_cons_self _ _) act0 hc
      subst hupd
      rcases hrest : reconcileGo cols rules uidx sidx rest with _ | ⟨I', U'⟩
      · rw [hrest] at h
        exact Option.noConfusion h
      · rw [hrest] at h
        obtain ⟨rfl, rfl⟩ := Prod.mk.injEq .. ▸ (Option.some.injEq .. ▸ h)
        obtain ⟨h1, h2⟩ := ih hrest
          (fun fac hf act hact => hall fac (List.mem_cons_of_mem _ hf) act hact)
        exact ⟨h1, by simp [h2]⟩

theorem applySheet_ids_nonzero {sheet : DSheet} {I : List Insert}
    {U : List Update} {newIds : List ℕ}
    (hids : ∀ r ∈ sheet.rows, r.id ≠ 0) (hnew : ∀ i ∈ newIds, i ≠ 0) :
    ∀ r' ∈ (applySheet sheet I U newIds).rows, r'.id ≠ 0 := by
  intro r' hr'
  rw [applySheet] at hr'
  rcases List.mem_append.mp hr' with hl | hr2
  · obtain ⟨r, hr, hid⟩ := applyUpdates_ids U sheet.rows r' hl
    rw [hid]
    exact hids r hr
  · obtain ⟨p, hp, heq⟩ := List.mem_map.mp hr2
    rw [← heq, applyCells_id]
    exact hnew p.2 (List.of_mem_zip hp).2

/-- C3 (amended): reconciliation is idempotent.  For a batch whose
records all carry present, unique identities mapping to a resolvable
identity column (to which no other rule writes), if the first run
completes and its updates target pairwise-distinct rows, then a second
run against the destination with the first run's inserts and updates
fully applied (fresh nonzero row ids for the inserts, nonzero existing
ids) classifies every record as an update and produces zero inserts. -/
theorem c3_idempotence (sheet : DSheet) (rules : List (String × String))
    (facs : List Fac) (I : List Insert) (U : List Update) (newIds : List ℕ)
    (I2 : List Insert) (U2 : List Update) (dstU : String) (u : ℕ)
    (hrun1 : reconcile sheet rules facs = some (I, U))
    (huuid : ∀ fac ∈ facs, uuidVal fac ≠ "")
    (_hnodup : (facs.map uuidVal).Nodup)
    (hdst : dget rules "UUID" = some dstU)
    (hcol : colMapGet sheet.columns (slug dstU) = some u)
    (hu0 : u ≠ 0)
    (honly : ∀ rule ∈ rules, colMapGet sheet.columns (slug rule.2) = some u →
      rule.1 = "UUID")
    (hupddist : (U.map Prod.fst).Nodup)
    (hids : ∀ r ∈ sheet.rows, r.id ≠ 0)
    (hnew : ∀ i ∈ newIds, i ≠ 0)
    (hlen : newIds.length = I.length)
    (hrun2 : reconcile (applySheet sheet I U newIds) rules facs = some (I2, U2)) :
    I2 = [] ∧ U2.length = facs.length := by
  rw [reconcile] at hrun1
  rcases hsc : sheetCols sheet rules with ⟨u', c0, c1, c2, c3⟩
  have hu' : u' = some u := by
    have hproj : (sheetCols sheet rules).1 = u' := by rw [hsc]
    rw [sheetCols] at hproj
    simp only [hdst, Option.map_some', Option.getD_some] at hproj
    rw [hcol] at hproj
    exact hproj.symm
  subst hu'
  rw [hsc] at hrun1
  have hrun1' : (match buildIndexes (some u) c0 c1 c2 c3 sheet.rows with
      | none => none
      | some (uidx, sidx) => reconcileGo sheet.columns rules uidx sidx facs)
      = some (I, U) := hrun1
  rcases hidx : buildIndexes (some u) c0 c1 c2 c3 sheet.rows with _ | ⟨uidx, sidx⟩
  · rw [hidx] at hrun1'
    exact Option.noConfusion hrun1'
  rw [hidx] at hrun1'
  rw [reconcile] at hrun2
  have hsc2 : sheetCols (applySheet sheet I U newIds) rules
      = (some u, c0, c1, c2, c3) := by
    have hcc : sheetCols (applySheet sheet I U newIds) rules
        = sheetCols sheet rules := rfl
    rw [hcc, hsc]
  rw [hsc2] at hrun2
  have hrun2' : (match buildIndexes (some u) c0 c1 c2 c3
        (applySheet sheet I U newIds).rows with
      | none => none
      | some (uidx, sidx) =>
        reconcileGo (applySheet sheet I U newIds).columns rules uidx sidx facs)
      = some (I2, U2) := hrun2
  rcases hidx2 : buildIndexes (some u) c0 c1 c2 c3
      (applySheet sheet I U newIds).rows with _ | ⟨uidx2, sidx2⟩
  · rw [hidx2] at hrun2'
    exact Option.noConfusion hrun2'
  rw [hidx2] at hrun2'
  rw [show (applySheet sheet I U newIds).columns = sheet.columns from rfl]
    at hrun2'
  apply reconcileGo_all_upd hrun2'
  intro fac hf act hact
  have hne := huuid fac hf
  obtain ⟨htr, heq⟩ := uuidVal_truthy hne
  have hmemcell : (u, fget fac "UUID") ∈ buildCells sheet.columns rules fac :=
    buildCells_uuid_mem hdst hcol hu0 htr
  have hallcell : ∀ p ∈ buildCells sheet.columns rules fac,
      p.1 = u → p.2 = fget fac "UUID" := by
    intro p hp hpu
    have hpe : (u, p.2) = p := by
      rw [← hpu]
    exact buildCells_uuid_val honly (hpe ▸ hp)
  have hcellne : buildCells sheet.columns rules fac ≠ [] := by
    intro hempty
    rw [hempty] at hmemcell
    simp at hmemcell
  obtain ⟨act1, hact1, hins1, hupd1⟩ := reconcileGo_mem hrun1' fac hf
  have hrow : ∃ row ∈ (applySheet sheet I U newIds).rows,
      (∃ c ∈ row.cells, c.columnId = u) ∧
      (∀ c ∈ row.cells, c.columnId = u → c = ⟨u, fget fac "UUID", none⟩) := by
    rcases classifyFac_act_cells hact1 hcellne with hins | ⟨ρ1, hρ1, hupd⟩
    · obtain ⟨i, himem, hzip⟩ := zip_mem_of_len I newIds hlen _ (hins1 _ hins)
      refine ⟨applyCells (buildCells sheet.columns rules fac) ⟨i, []⟩, ?_, ?_⟩
      · exact List.mem_append_right _
          (List.mem_map.mpr ⟨(buildCells sheet.columns rules fac, i), hzip, rfl⟩)
      · exact applyCells_estab _ _ u (fget fac "UUID") hmemcell hallcell
    · have hmemU : (ρ1, buildCells sheet.columns rules fac) ∈ U := hupd1 _ _ hupd
      rw [hupd] at hact1
      have holdrow : ∃ r ∈ sheet.rows, r.id = ρ1 := by
        rcases classifyFac_upd_source hact1 with ⟨k, hk⟩ | ⟨sg0, hsg0⟩
        · obtain ⟨r, hr, hid⟩ := buildIndexes_uidx_sub hidx (k, ρ1)
            (mem_of_dget hk)
          exact ⟨r, hr, hid⟩
        · obtain ⟨r, hr, hid⟩ := buildIndexes_sidx_sub hidx (sg0, ρ1)
            (mem_of_dget hsg0)
          exact ⟨r, hr, hid⟩
      obtain ⟨r, hr, hid⟩ := holdrow
      refine ⟨applyCells (buildCells sheet.columns rules fac) r, ?_, ?_⟩
      · exact List.mem_append_left _
          (applyUpdates_mem_target U sheet.rows hupddist ρ1 _ hmemU r hr hid)
      · exact applyCells_estab _ _ u (fget fac "UUID") hmemcell hallcell
  obtain ⟨row, hrowmem, hex, hall⟩ := hrow
  have hscan : (rowScan (some u) c0 c1 c2 c3 row).rowUuid
      = some (pyStrip (fget fac "UUID").pyStr) :=
    rowScan_rowUuid_of_uniform u hu0 c0 c1 c2 c3 row _ htr hex hall
  rw [← heq] at hscan
  have huent : (uuidVal fac, row.id) ∈ uidx2 :=
    buildIndexes_uuid_mem hidx2 row hrowmem _ hscan hne
  obtain ⟨ρ, hρ⟩ := Option.isSome_iff_exists.mp (dget_isSome_of_mem huent)
  obtain ⟨r'', hr'', hid''⟩ := buildIndexes_uidx_sub hidx2 (uuidVal fac, ρ)
    (mem_of_dget hρ)
  have hid2 : r''.id = ρ := hid''
  have hρ0 : ρ ≠ 0 := by
    rw [← hid2]
    exact applySheet_ids_nonzero hids hnew r'' hr''
  exact ⟨ρ, _, classifyFac_upd_of_uuid hne hρ hρ0 hcellne hact⟩

/-- C3 counterexample: two records with present, distinct identities
against a one-row destination — the first matches row 1 by identity,
the second matches the same row 1 by signature, so the first run's
updates collide on one row.  After the writes are applied (last write
wins, the documented commit order), the second run no longer finds the
first record's identity or signature and produces an INSERT, refuting
the claim as stated. -/
theorem c3_counterexample_shared_target :
    (∀ fac ∈ [facMatchById, facMatchBySig], uuidVal fac ≠ "") ∧
    ([facMatchById, facMatchBySig].map uuidVal).Nodup ∧
    optNatTruthy (sheetCols oneRowSheet defaultRules).1 = true ∧
    ∃ p, reconcile oneRowSheet defaultRules [facMatchById, facMatchBySig]
        = some p ∧
      ∃ p2, reconcile (applySheet oneRowSheet p.1 p.2 []) defaultRules
          [facMatchById, facMatchBySig] = some p2 ∧
        p2.1 ≠ [] := by
  refine ⟨by decide, by decide, by decide, ⟨_, rfl, ⟨_, rfl, by decide⟩⟩⟩

/-- C3 witness: two fresh records against an empty destination insert
on the first run and both classify as updates, with zero inserts, on
the second. -/
theorem c3_idempotence_witness :
    ([] : List Insert) = [] ∧
    ([((11 : ℕ), scenarioCells), ((12 : ℕ), secondCells)] : List Update).length
      = [scenarioFac, secondFac].length :=
  c3_idempotence emptyDefaultSheet defaultRules [scenarioFac, secondFac]
    [scenarioCells, secondCells] [] [11, 12] []
    [(11, scenarioCells), (12, secondCells)] "UUID" 1
    (by rfl) (by decide) (by decide) (by rfl) (by rfl) (by decide)
    (by decide) (by decide) (by decide) (by decide) (by rfl) (by rfl)

end BindSync
